import Mathlib

/-!
# Verification of `frb_codegen/src/parser.rs` against its specification

This file is a shallow embedding of the semantic core of the binding
generator: extraction of public items, the generic shape matcher
(`GenericCapture`), the recursive type resolver (`parse_type` and its
`try_parse_*` branches), the struct resolver with its memoization pool,
the function resolver (`parse_function`) and the IR assembler (`parse`).

Conventions of the embedding:

* Strings are `List Char` (the canonical, whitespace-free type
  expressions produced by the front end's `type_to_string`).
* The mutable `Parser` struct of the source becomes an explicit
  `ParserState` threaded through every call.
* `panic!` / `.expect` / `.unwrap` become the `PResult.fail` outcome,
  carrying a structured `ParseErr` that identifies the panic site
  (the source carries the same information in its message strings).
* The mutually recursive resolver is indexed by a fuel parameter; the
  `PResult.outOfFuel` outcome is distinct from failure, so termination
  statements ("the run completes, it does not exhaust any fuel bound")
  are expressible.
* Items from this repository that are *not* in the provided sources
  (`api_types.rs`, `generator_rust.rs`) are modelled from the spec and
  marked as such in their doc comments.
-/

set_option linter.unusedVariables false

/-! ## Character-list constants (the string literals of the source) -/

/-- The wrapper name `Vec` (list wrapper). -/
def clsVec : List Char := ['V', 'e', 'c']

/-- The wrapper name `Box` (indirection wrapper). -/
def clsBox : List Char := ['B', 'o', 'x']

/-- The wrapper name `Option` (optional wrapper). -/
def clsOption : List Char := ['O', 'p', 't', 'i', 'o', 'n']

/-- The wrapper name `Result` (fallible-result wrapper). -/
def clsResult : List Char := ['R', 'e', 's', 'u', 'l', 't']

/-- The wrapper name `StreamSink` (stream-channel wrapper). -/
def clsStreamSink : List Char := ['S', 't', 'r', 'e', 'a', 'm', 'S', 'i', 'n', 'k']

/-- The wrapper name `ZeroCopyBuffer` (zero-copy buffer wrapper). -/
def clsZeroCopyBuffer : List Char :=
  ['Z', 'e', 'r', 'o', 'C', 'o', 'p', 'y', 'B', 'u', 'f', 'f', 'e', 'r']

/-- The exact type string `String`. -/
def tyString : List Char := ['S', 't', 'r', 'i', 'n', 'g']

/-- The exact type string `SyncReturn<Vec<u8>>`. -/
def tySyncReturnVecU8 : List Char :=
  ['S', 'y', 'n', 'c', 'R', 'e', 't', 'u', 'r', 'n', '<',
   'V', 'e', 'c', '<', 'u', '8', '>', '>']

/-- Modelled from the spec: the fixed marker token (`HANDLER_NAME`, declared
in `generator_rust.rs`, which is not among the provided sources) whose
presence anywhere in the raw source text sets the capability flag. -/
def HANDLER_NAME : List Char :=
  ['F', 'L', 'U', 'T', 'T', 'E', 'R', '_', 'R', 'U', 'S', 'T', '_',
   'B', 'R', 'I', 'D', 'G', 'E', '_', 'H', 'A', 'N', 'D', 'L', 'E', 'R']

/-! ## The generic shape matcher (`GenericCapture`)

`GenericCapture::new(cls)` builds the anchored regex
`^[^<]*cls<([a-zA-Z0-9_<>]+)>$` and `captures` returns group 1.

Because `[^<]*` and the wrapper names contain no `<`, the `<` that follows
the wrapper name in any match is necessarily the *first* `<` of the
subject, so the regex matches exactly when: the run of characters before
the first `<` ends with `cls`, the last character of the subject is `>`,
and the (nonempty) segment strictly between that first `<` and the final
`>` consists only of characters from the class `[a-zA-Z0-9_<>]`.  The
captured group is that middle segment.  `genericCaptures` below computes
this directly. -/

/-- One character of the regex class `[a-zA-Z0-9_<>]` (ASCII, as in the
`regex` crate without the unicode classes involved here). -/
def isGenericInnerChar (c : Char) : Bool :=
  c.isAlphanum || c == '_' || c == '<' || c == '>'

/-- `GenericCapture::new(cls).captures(s)`: return the single inner type
expression when `s` has the shape `prefix-without-'<'` ++ `cls` ++ `<inner>`. -/
def genericCaptures (cls : List Char) (s : List Char) : Option (List Char) :=
  match s.dropWhile (fun c => !(c == '<')) with
  | '<' :: rest =>
    if cls.isSuffixOf (s.takeWhile (fun c => !(c == '<')))
        && rest.getLast? == some '>'
        && !rest.dropLast.isEmpty
        && rest.dropLast.all isGenericInnerChar
    then some rest.dropLast
    else none
  | _ => none

/-! ## The IR data model (`api_types.rs`, modelled from the spec)

`api_types.rs` is not among the provided sources; the following
definitions are modelled from the spec's §3 data model, with the
constructor names the source code of `parser.rs` uses. -/

/-- Modelled from the spec: the fixed scalar kinds recognised by the
exact-name primitive match (`ApiTypePrimitive::try_from_rust_str`). -/
inductive ApiTypePrimitive where
  | u8 | i8 | u16 | i16 | u32 | i32 | u64 | i64 | f32 | f64 | bool
  deriving Repr, DecidableEq

/-- Modelled from the spec: the delegate kinds (textual string, zero-copy
buffer over a primitive element, synchronous-fast-path byte buffer). -/
inductive ApiTypeDelegate where
  | String
  | ZeroCopyBufferVecPrimitive (primitive : ApiTypePrimitive)
  | SyncReturnVecU8
  deriving Repr, DecidableEq

/-- Modelled from the spec: the closed tagged union of IR type nodes.
`OptionalPrim` is `Optional(ApiTypeOptional::new_prim p)` (inline
nullable primitive representation) and `OptionalPtr` is
`Optional(ApiTypeOptional::new_ptr t)` (nullable pointer
representation).  `Boxed b t` is `Boxed(ApiTypeBoxed { exist_in_real_api:
b, inner: t })`. -/
inductive ApiType where
  | Primitive (primitive : ApiTypePrimitive)
  | Delegate (delegate : ApiTypeDelegate)
  | PrimitiveList (primitive : ApiTypePrimitive)
  | GeneralList (inner : ApiType)
  | Boxed (exist_in_real_api : Bool) (inner : ApiType)
  | OptionalPrim (primitive : ApiTypePrimitive)
  | OptionalPtr (inner : ApiType)
  | StructRef (name : List Char)
  deriving Repr, DecidableEq

/-- Modelled from the spec: the table behind
`ApiTypePrimitive::try_from_rust_str` (exact-name primitive match). -/
def primTable : List (List Char × ApiTypePrimitive) :=
  [(['u', '8'], .u8), (['i', '8'], .i8),
   (['u', '1', '6'], .u16), (['i', '1', '6'], .i16),
   (['u', '3', '2'], .u32), (['i', '3', '2'], .i32),
   (['u', '6', '4'], .u64), (['i', '6', '4'], .i64),
   (['f', '3', '2'], .f32), (['f', '6', '4'], .f64),
   (['b', 'o', 'o', 'l'], .bool)]

/-- Association-list lookup (models `HashMap` lookup / `contains_key`). -/
def alookup {α : Type} (k : List Char) : List (List Char × α) → Option α
  | [] => none
  | (k', v) :: rest => if k' = k then some v else alookup k rest

/-- Association-list insert (models `HashMap::insert`: the new binding
replaces any previous binding of the same key). -/
def ainsert {α : Type} (k : List Char) (v : α) (l : List (List Char × α)) :
    List (List Char × α) :=
  (k, v) :: l.filter (fun p => !(p.1 == k))

/-- Number of entries with key `k` (for uniqueness statements). -/
def acount {α : Type} (k : List Char) (l : List (List Char × α)) : Nat :=
  (l.filter (fun p => p.1 == k)).length

/-- Modelled from the spec: `ApiTypePrimitive::try_from_rust_str`. -/
def ApiTypePrimitive.try_from_rust_str (ty : List Char) : Option ApiTypePrimitive :=
  alookup ty primTable

/-- Parameter/field node (`ApiField`); `name` models the `ApiIdent`. -/
structure ApiField where
  name : List Char
  ty : ApiType
  comments : List (List Char)
  deriving Repr, DecidableEq

/-- Struct node (`ApiStruct`). -/
structure ApiStruct where
  name : List Char
  fields : List ApiField
  is_fields_named : Bool
  comments : List (List Char)
  deriving Repr, DecidableEq

/-- Execution mode (`ApiFuncMode`). -/
inductive ApiFuncMode where
  | Normal
  | Sync
  | Stream
  deriving Repr, DecidableEq

/-- Function node (`ApiFunc`). -/
structure ApiFunc where
  name : List Char
  inputs : List ApiField
  output : ApiType
  mode : ApiFuncMode
  comments : List (List Char)
  deriving Repr, DecidableEq

/-- The IR Document (`ApiFile`). -/
structure ApiFile where
  funcs : List ApiFunc
  struct_pool : List (List Char × ApiStruct)
  has_executor : Bool
  deriving Repr, DecidableEq

/-! ## The front-end declaration tree (consumed interface, §6)

These model the `syn` items the parser consumes: only the data the
parser actually reads (visibility, names, canonical type-expression
strings, documentation lines already extracted from `doc` attributes). -/

/-- A struct field as seen by the parser: optional identifier (named
fields have one, positional fields do not), canonical type expression,
documentation lines. -/
structure SrcField where
  ident : Option (List Char)
  ty : List Char
  comments : List (List Char)
  deriving Repr, DecidableEq

/-- The field container of a struct declaration (`syn::Fields`). -/
inductive SrcFields where
  | named (fields : List SrcField)
  | unnamed (fields : List SrcField)
  | unit
  deriving Repr, DecidableEq

/-- A struct item (`syn::ItemStruct`, restricted to what the parser reads). -/
structure SrcItemStruct where
  ident : List Char
  fields : SrcFields
  comments : List (List Char)
  deriving Repr, DecidableEq

/-- A parameter binding pattern (`syn::Pat`): a simple name, or anything
else (which the parser rejects). -/
inductive SrcPat where
  | ident (name : List Char)
  | other
  deriving Repr, DecidableEq

/-- A typed function parameter (`syn::PatType`). -/
structure SrcParam where
  pat : SrcPat
  ty : List Char
  comments : List (List Char)
  deriving Repr, DecidableEq

/-- A function argument (`syn::FnArg`): receiver (`self`, rejected) or a
typed parameter. -/
inductive SrcArg where
  | receiver
  | typed (param : SrcParam)
  deriving Repr, DecidableEq

/-- A declared return type (`syn::ReturnType`). -/
inductive SrcReturnType where
  | default
  | ty (t : List Char)
  deriving Repr, DecidableEq

/-- A function item (`syn::ItemFn`, restricted to what the parser reads). -/
structure SrcFn where
  name : List Char
  inputs : List SrcArg
  output : SrcReturnType
  comments : List (List Char)
  deriving Repr, DecidableEq

/-- A top-level item of the source file, tagged with whether its
visibility is `pub`. -/
inductive SrcItem where
  | fn (isPub : Bool) (f : SrcFn)
  | structItem (isPub : Bool) (s : SrcItemStruct)
  | other
  deriving Repr, DecidableEq

/-! ## Parser state and results -/

/-- The mutable fields of `struct Parser` made explicit. -/
structure ParserState where
  src_struct_map : List (List Char × SrcItemStruct)
  struct_pool : List (List Char × ApiStruct)
  parsing_or_parsed_struct_names : List (List Char)
  deriving Repr, DecidableEq

/-- One `ParseErr` constructor per `panic!`/`expect` site of the source
(the source distinguishes the sites by their message strings). -/
inductive ParseErr where
  /-- `panic!("unexpected pat_type={:?}", …)` -/
  | unexpectedPatType
  /-- `panic!("unexpected sig_input={:?}", …)` -/
  | unexpectedSigInput
  /-- `panic!("unsupported type_string: {}", ty)` -/
  | unsupportedTypeString (ty : List Char)
  /-- `panic!("unsupported output: {:?}", …)` on `ReturnType::Default` -/
  | unsupportedOutputDefault
  /-- `.expect("unsupported output")` on the final unwrap -/
  | unsupportedOutputUnwrap
  /-- `.expect("unsupported mode")` on the final unwrap -/
  | unsupportedModeUnwrap
  /-- `panic!("parse_type failed for ty={}", ty)` -/
  | parseTypeFailed (ty : List Char)
  /-- `panic!("Nested optionals without indirection are not supported. …")` -/
  | nestedOption (inner : List Char)
  /-- `panic!("unsupported type: {:?}", fields)` on unit-like structs -/
  | unsupportedFields
  /-- the `self.src_struct_map[ty]` index panic -/
  | structNotFound (ty : List Char)
  deriving Repr, DecidableEq

/-- Outcome of a fuel-indexed run: a value, a fatal panic, or fuel
exhaustion (the latter distinct so termination is expressible). -/
inductive PResult (α : Type) where
  | ok (a : α)
  | fail (e : ParseErr)
  | outOfFuel
  deriving Repr, DecidableEq

/-- Chains one `try_parse_*` branch with the rest of the `.or_else`
chain: a matched branch ends the chain, an unmatched branch passes the
(possibly mutated) state on, a panic aborts. -/
def orElseT (r : PResult (Option ApiType × ParserState))
    (k : ParserState → PResult (ApiType × ParserState)) :
    PResult (ApiType × ParserState) :=
  match r with
  | .ok (some t, st) => .ok (t, st)
  | .ok (none, st) => k st
  | .fail e => .fail e
  | .outOfFuel => .outOfFuel

/-- Name of a positional field: `format!("field{}", idx)`. -/
def unnamedFieldName (idx : Nat) : List Char :=
  ['f', 'i', 'e', 'l', 'd'] ++ Nat.toDigits 10 idx

/-! ## The type and struct resolvers

The mutually recursive functions of `impl Parser`, fuel-indexed.  Every
call between members of the pack decrements the fuel, making the
recursion structural in the fuel. -/

mutual

/-- `Parser::parse_type`: first-match-wins priority chain. -/
def parse_type : Nat → ParserState → List Char → PResult (ApiType × ParserState)
  | 0, _, _ => .outOfFuel
  | n + 1, st, ty =>
    match ApiTypePrimitive.try_from_rust_str ty with
    | some p => .ok (.Primitive p, st)
    | none =>
      orElseT (try_parse_api_type_delegate n st ty) fun st1 =>
      orElseT (try_parse_list n st1 ty) fun st2 =>
      orElseT (try_parse_box n st2 ty) fun st3 =>
      orElseT (try_parse_option n st3 ty) fun st4 =>
      orElseT (try_parse_struct n st4 ty) fun _ =>
      .fail (.parseTypeFailed ty)

/-- `Parser::try_parse_api_type_delegate`. -/
def try_parse_api_type_delegate : Nat → ParserState → List Char →
    PResult (Option ApiType × ParserState)
  | 0, _, _ => .outOfFuel
  | n + 1, st, ty =>
    if ty = tySyncReturnVecU8 then .ok (some (.Delegate .SyncReturnVecU8), st)
    else if ty = tyString then .ok (some (.Delegate .String), st)
    else
      match genericCaptures clsZeroCopyBuffer ty with
      | some inner =>
        match try_parse_list n st inner with
        | .ok (some (ApiType.PrimitiveList p), st') =>
          .ok (some (.Delegate (.ZeroCopyBufferVecPrimitive p)), st')
        | .ok (_, st') => .ok (none, st')
        | .fail e => .fail e
        | .outOfFuel => .outOfFuel
      | none => .ok (none, st)

/-- `Parser::try_parse_list`. -/
def try_parse_list : Nat → ParserState → List Char →
    PResult (Option ApiType × ParserState)
  | 0, _, _ => .outOfFuel
  | n + 1, st, ty =>
    match genericCaptures clsVec ty with
    | some inner =>
      match parse_type n st inner with
      | .ok (ApiType.Primitive p, st') => .ok (some (.PrimitiveList p), st')
      | .ok (other, st') => .ok (some (.GeneralList other), st')
      | .fail e => .fail e
      | .outOfFuel => .outOfFuel
    | none => .ok (none, st)

/-- `Parser::try_parse_box`. -/
def try_parse_box : Nat → ParserState → List Char →
    PResult (Option ApiType × ParserState)
  | 0, _, _ => .outOfFuel
  | n + 1, st, ty =>
    match genericCaptures clsBox ty with
    | some inner =>
      match parse_type n st inner with
      | .ok (t, st') => .ok (some (.Boxed true t), st')
      | .fail e => .fail e
      | .outOfFuel => .outOfFuel
    | none => .ok (none, st)

/-- `Parser::try_parse_option`. -/
def try_parse_option : Nat → ParserState → List Char →
    PResult (Option ApiType × ParserState)
  | 0, _, _ => .outOfFuel
  | n + 1, st, ty =>
    match genericCaptures clsOption ty with
    | some inner =>
      match genericCaptures clsOption inner with
      | some innerOption => .fail (.nestedOption innerOption)
      | none =>
        match parse_type n st inner with
        | .ok (ApiType.Primitive p, st') => .ok (some (.OptionalPrim p), st')
        | .ok (ApiType.StructRef nm, st') =>
          .ok (some (.OptionalPtr (.Boxed false (.StructRef nm))), st')
        | .ok (other, st') => .ok (some (.OptionalPtr other), st')
        | .fail e => .fail e
        | .outOfFuel => .outOfFuel
    | none => .ok (none, st)

/-- `Parser::try_parse_struct`: memoized by
`parsing_or_parsed_struct_names`; first resolution inserts the pool
entry, every resolution returns a by-name `StructRef`. -/
def try_parse_struct : Nat → ParserState → List Char →
    PResult (Option ApiType × ParserState)
  | 0, _, _ => .outOfFuel
  | n + 1, st, ty =>
    if (alookup ty st.src_struct_map).isSome then
      if ty ∈ st.parsing_or_parsed_struct_names then
        .ok (some (.StructRef ty), st)
      else
        let st1 : ParserState :=
          { st with parsing_or_parsed_struct_names :=
              ty :: st.parsing_or_parsed_struct_names }
        match parse_struct_core n st1 ty with
        | .ok (s, st2) =>
          .ok (some (.StructRef ty),
               { st2 with struct_pool := ainsert ty s st2.struct_pool })
        | .fail e => .fail e
        | .outOfFuel => .outOfFuel
    else .ok (none, st)

/-- `Parser::parse_struct_core`. -/
def parse_struct_core : Nat → ParserState → List Char →
    PResult (ApiStruct × ParserState)
  | 0, _, _ => .outOfFuel
  | n + 1, st, ty =>
    match alookup ty st.src_struct_map with
    | none => .fail (.structNotFound ty)
    | some item =>
      match item.fields with
      | SrcFields.unit => .fail .unsupportedFields
      | SrcFields.named fs =>
        match parse_fields n st fs 0 with
        | .ok (apiFields, st') =>
          .ok ({ name := item.ident, fields := apiFields,
                 is_fields_named := true, comments := item.comments }, st')
        | .fail e => .fail e
        | .outOfFuel => .outOfFuel
      | SrcFields.unnamed fs =>
        match parse_fields n st fs 0 with
        | .ok (apiFields, st') =>
          .ok ({ name := item.ident, fields := apiFields,
                 is_fields_named := false, comments := item.comments }, st')
        | .fail e => .fail e
        | .outOfFuel => .outOfFuel

/-- The field loop of `parse_struct_core` (`idx` is the running
enumeration index used for positional field names). -/
def parse_fields : Nat → ParserState → List SrcField → Nat →
    PResult (List ApiField × ParserState)
  | 0, _, _, _ => .outOfFuel
  | _ + 1, st, [], _ => .ok ([], st)
  | n + 1, st, f :: fs, idx =>
    match parse_type n st f.ty with
    | .ok (t, st') =>
      match parse_fields n st' fs (idx + 1) with
      | .ok (rest, st'') =>
        .ok ({ name := (f.ident).getD (unnamedFieldName idx), ty := t,
               comments := f.comments } :: rest, st'')
      | .fail e => .fail e
      | .outOfFuel => .outOfFuel
    | .fail e => .fail e
    | .outOfFuel => .outOfFuel

end

/-! ## The function resolver and the assembler -/

/-- `Parser::try_parse_stream_sink`. -/
def try_parse_stream_sink (n : Nat) (st : ParserState) (ty : List Char) :
    PResult (Option ApiType × ParserState) :=
  match genericCaptures clsStreamSink ty with
  | some inner =>
    match parse_type n st inner with
    | .ok (t, st') => .ok (some t, st')
    | .fail e => .fail e
    | .outOfFuel => .outOfFuel
  | none => .ok (none, st)

/-- The parameter walk of `Parser::parse_function`: threads the
accumulated input list and the (initially absent) output type and mode
through the arguments in order. -/
def walk_params (n : Nat) : ParserState → List SrcArg → List ApiField →
    Option ApiType → Option ApiFuncMode →
    PResult ((List ApiField × Option ApiType × Option ApiFuncMode) × ParserState)
  | st, [], acc, out, mode => .ok ((acc, out, mode), st)
  | _, SrcArg.receiver :: _, _, _, _ => .fail .unexpectedSigInput
  | st, SrcArg.typed p :: rest, acc, out, mode =>
    match p.pat with
    | SrcPat.other => .fail .unexpectedPatType
    | SrcPat.ident nm =>
      match try_parse_stream_sink n st p.ty with
      | .ok (some t, st') => walk_params n st' rest acc (some t) (some .Stream)
      | .ok (none, st') =>
        match parse_type n st' p.ty with
        | .ok (t, st'') =>
          walk_params n st'' rest
            (acc ++ [{ name := nm, ty := t, comments := p.comments }]) out mode
        | .fail e => .fail e
        | .outOfFuel => .outOfFuel
      | .fail e => .fail e
      | .outOfFuel => .outOfFuel

/-- `Parser::parse_function`. -/
def parse_function (n : Nat) (st : ParserState) (func : SrcFn) :
    PResult (ApiFunc × ParserState) :=
  match walk_params n st func.inputs [] none none with
  | .ok ((inputs, out?, mode?), st1) =>
    match out? with
    | some _ =>
      -- `output.is_none()` is false: the declared return type is skipped
      match out?, mode? with
      | some o, some m =>
        .ok ({ name := func.name, inputs := inputs, output := o,
               mode := m, comments := func.comments }, st1)
      | none, _ => .fail .unsupportedOutputUnwrap
      | some _, none => .fail .unsupportedModeUnwrap
    | none =>
      match func.output with
      | SrcReturnType.default => .fail .unsupportedOutputDefault
      | SrcReturnType.ty tyStr =>
        match genericCaptures clsResult tyStr with
        | none => .fail (.unsupportedTypeString tyStr)
        | some inner =>
          match parse_type n st1 inner with
          | .ok (outT, st2) =>
            let mode : ApiFuncMode :=
              if outT = ApiType.Delegate .SyncReturnVecU8 then .Sync else .Normal
            .ok ({ name := func.name, inputs := inputs, output := outT,
                   mode := mode, comments := func.comments }, st2)
          | .fail e => .fail e
          | .outOfFuel => .outOfFuel
  | .fail e => .fail e
  | .outOfFuel => .outOfFuel

/-- The `map`/`collect` over the source functions in `Parser::parse`,
threading the single parser state across all of them. -/
def parse_funcs (n : Nat) : ParserState → List SrcFn →
    PResult (List ApiFunc × ParserState)
  | st, [] => .ok ([], st)
  | st, f :: fs =>
    match parse_function n st f with
    | .ok (af, st') =>
      match parse_funcs n st' fs with
      | .ok (rest, st'') => .ok (af :: rest, st'')
      | .fail e => .fail e
      | .outOfFuel => .outOfFuel
    | .fail e => .fail e
    | .outOfFuel => .outOfFuel

/-- `str::contains` of the Rust standard library: `strContains s pat`
is true when `pat` occurs contiguously anywhere in `s`. -/
def strContains (pat : List Char) : List Char → Bool
  | [] => pat.isPrefixOf ([] : List Char)
  | c :: rest => pat.isPrefixOf (c :: rest) || strContains pat rest

/-- `Parser::parse`: resolve every function, keep the struct pool, scan
the raw source text for the marker token. -/
def Parser.parse (n : Nat) (st : ParserState) (source_rust_content : List Char)
    (src_fns : List SrcFn) : PResult ApiFile :=
  match parse_funcs n st src_fns with
  | .ok (funcs, st') =>
    .ok { funcs := funcs, struct_pool := st'.struct_pool,
          has_executor := strContains HANDLER_NAME source_rust_content }
  | .fail e => .fail e
  | .outOfFuel => .outOfFuel

/-- The loop of `extract_items_from_file`, walking the items in file
order with the two accumulators. -/
def extract_items_go : List SrcItem → List SrcFn →
    List (List Char × SrcItemStruct) →
    List SrcFn × List (List Char × SrcItemStruct)
  | [], fns, smap => (fns, smap)
  | SrcItem.fn isPub f :: rest, fns, smap =>
    extract_items_go rest (if isPub then fns ++ [f] else fns) smap
  | SrcItem.structItem isPub s :: rest, fns, smap =>
    extract_items_go rest fns (if isPub then ainsert s.ident s smap else smap)
  | SrcItem.other :: rest, fns, smap => extract_items_go rest fns smap

/-- `extract_items_from_file`: publicly visible functions in declaration
order and the by-name map of publicly visible structs (a later duplicate
name overwrites an earlier one, as with `HashMap::insert`). -/
def extract_items_from_file (items : List SrcItem) :
    List SrcFn × List (List Char × SrcItemStruct) :=
  extract_items_go items [] []

/-- The top-level `parse` entry point. -/
def parse (n : Nat) (source_rust_content : List Char) (items : List SrcItem) :
    PResult ApiFile :=
  let (src_fns, src_struct_map) := extract_items_from_file items
  Parser.parse n
    { src_struct_map := src_struct_map, struct_pool := [],
      parsing_or_parsed_struct_names := [] }
    source_rust_content src_fns

/-! ## Part II: basic lemmas about the shape matcher and the tables -/

/-- One character of an identifier (struct names and primitive names). -/
def isIdentChar (c : Char) : Bool := c.isAlphanum || c == '_'

/-- A plausible user-defined type name: nonempty, identifier characters
only. -/
def ValidName (S : List Char) : Prop :=
  S ≠ [] ∧ ∀ c ∈ S, isIdentChar c = true

theorem ValidName.not_lt_mem {S : List Char} (h : ValidName S) : '<' ∉ S := by
  intro hm
  have := h.2 '<' hm
  exact absurd this (by decide)

theorem isGenericInnerChar_of_isIdentChar {c : Char}
    (h : isIdentChar c = true) : isGenericInnerChar c = true := by
  unfold isIdentChar at h
  unfold isGenericInnerChar
  rcases Bool.or_eq_true_iff.mp h with h' | h' <;> simp [h']

theorem mem_of_mem_dropWhile {p : Char → Bool} {c : Char} :
    ∀ {l : List Char}, c ∈ l.dropWhile p → c ∈ l := by
  intro l
  induction l with
  | nil => intro h; exact absurd h (by simp)
  | cons a t ih =>
    intro h
    rw [List.dropWhile_cons] at h
    by_cases hp : p a = true
    · simp only [hp, if_true] at h
      exact List.mem_cons_of_mem a (ih h)
    · simp only [hp, if_false] at h
      exact h

theorem genericCaptures_lt_mem {cls s i : List Char}
    (h : genericCaptures cls s = some i) : '<' ∈ s := by
  unfold genericCaptures at h
  split at h
  case _ rest heq =>
    exact mem_of_mem_dropWhile (heq ▸ List.mem_cons_self '<' rest)
  case _ => exact absurd h (by simp)

theorem genericCaptures_eq_none_of_not_lt {cls s : List Char}
    (h : '<' ∉ s) : genericCaptures cls s = none := by
  have hdw : s.dropWhile (fun c => !(c == '<')) = [] := by
    rw [List.dropWhile_eq_nil_iff]
    intro x hx
    simp only [Bool.not_eq_true', beq_eq_false_iff_ne, ne_eq]
    intro he
    exact h (he ▸ hx)
  unfold genericCaptures
  rw [hdw]

theorem suffix_getLast? {l r : List Char} (h : l <:+ r) (hne : l ≠ []) :
    r.getLast? = l.getLast? := by
  obtain ⟨t, rfl⟩ := h
  rw [List.getLast?_append]
  cases hl : l.getLast? with
  | none => exact absurd (List.getLast?_eq_none_iff.mp hl) hne
  | some a => rfl

/-- Two wrapper names with different last characters can never both match
the same subject: both would have to be a suffix of the run of characters
before the subject's first `<`. -/
theorem genericCaptures_excl {c1 c2 s i : List Char}
    (h : genericCaptures c1 s = some i)
    (h1 : c1 ≠ []) (h2 : c2 ≠ [])
    (hne : c1.getLast? ≠ c2.getLast?) :
    genericCaptures c2 s = none := by
  unfold genericCaptures at h ⊢
  split at h
  case _ rest heq =>
    split at h
    case _ hcond =>
      have hc1 : c1.isSuffixOf (s.takeWhile (fun c => !(c == '<'))) = true := by
        simp only [Bool.and_eq_true] at hcond
        exact hcond.1.1.1
      have hsuf1 : c1 <:+ s.takeWhile (fun c => !(c == '<')) :=
        List.isSuffixOf_iff_suffix.mp hc1
      have hlast1 : (s.takeWhile (fun c => !(c == '<'))).getLast? = c1.getLast? :=
        suffix_getLast? hsuf1 h1
      have hc2 : c2.isSuffixOf (s.takeWhile (fun c => !(c == '<'))) = false := by
        rw [Bool.eq_false_iff]
        intro hcc
        have hsuf2 := List.isSuffixOf_iff_suffix.mp hcc
        have hlast2 := suffix_getLast? hsuf2 h2
        exact hne (hlast1 ▸ hlast2)
      simp [hc2]
    case _ => exact absurd h (by simp)
  case _ => exact absurd h (by simp)

theorem takeWhile_append_cons {p : Char → Bool} {l t : List Char} {a : Char}
    (hl : ∀ c ∈ l, p c = true) (ha : p a = false) :
    (l ++ a :: t).takeWhile p = l := by
  induction l with
  | nil => simp [List.takeWhile_cons, ha]
  | cons c cs ih =>
    have hc : p c = true := hl c (by simp)
    simp only [List.cons_append, List.takeWhile_cons, hc, if_true]
    rw [ih (fun x hx => hl x (by simp [hx]))]

theorem dropWhile_append_cons {p : Char → Bool} {l t : List Char} {a : Char}
    (hl : ∀ c ∈ l, p c = true) (ha : p a = false) :
    (l ++ a :: t).dropWhile p = a :: t := by
  induction l with
  | nil => simp [List.dropWhile_cons, ha]
  | cons c cs ih =>
    have hc : p c = true := hl c (by simp)
    simp only [List.cons_append, List.dropWhile_cons, hc, if_true]
    exact ih (fun x hx => hl x (by simp [hx]))

/-- The canonical wrapped expression `cls<S>`. -/
def wrapGeneric (cls S : List Char) : List Char := cls ++ '<' :: (S ++ ['>'])

/-- A well-formed wrapper applied to a valid name always matches. -/
theorem genericCaptures_wrap {cls S : List Char}
    (hcls : ∀ c ∈ cls, (!(c == '<')) = true)
    (hS : S ≠ []) (hid : ∀ c ∈ S, isIdentChar c = true) :
    genericCaptures cls (wrapGeneric cls S) = some S := by
  unfold genericCaptures wrapGeneric
  rw [dropWhile_append_cons hcls (by decide), takeWhile_append_cons hcls (by decide)]
  have h1 : cls.isSuffixOf cls = true :=
    List.isSuffixOf_iff_suffix.mpr (List.suffix_refl cls)
  have h2 : (S ++ ['>']).getLast? = some '>' := List.getLast?_concat S
  have h3 : (S ++ ['>']).dropLast = S := List.dropLast_concat
  have h4 : S.isEmpty = false := by
    rw [List.isEmpty_eq_false]; exact hS
  have h5 : S.all isGenericInnerChar = true := by
    rw [List.all_eq_true]
    exact fun c hc => isGenericInnerChar_of_isIdentChar (hid c hc)
  simp [h1, h2, h3, h4, h5]

theorem alookup_eq_none_of_forall {α : Type} {k : List Char}
    {l : List (List Char × α)} (h : ∀ p ∈ l, p.1 ≠ k) : alookup k l = none := by
  induction l with
  | nil => rfl
  | cons p rest ih =>
    unfold alookup
    rw [if_neg (h p (by simp))]
    exact ih fun q hq => h q (by simp [hq])

theorem alookup_mem {α : Type} {k : List Char} {v : α} :
    ∀ {l : List (List Char × α)}, alookup k l = some v → (k, v) ∈ l := by
  intro l
  induction l with
  | nil => intro h; exact absurd h (by simp [alookup])
  | cons p rest ih =>
    intro h
    unfold alookup at h
    split at h
    case _ he => cases h; cases p; cases he; simp
    case _ => exact List.mem_cons_of_mem _ (ih h)

theorem try_from_rust_str_eq_none_of_lt {ty : List Char} (h : '<' ∈ ty) :
    ApiTypePrimitive.try_from_rust_str ty = none := by
  apply alookup_eq_none_of_forall
  intro p hp hk
  have hlt : '<' ∈ p.1 := hk ▸ h
  have hall : ∀ q ∈ primTable, '<' ∉ q.1 := by decide
  exact hall p hp hlt

theorem ValidName.try_from_ne_sync {S : List Char} (h : ValidName S) :
    S ≠ tySyncReturnVecU8 := by
  intro he
  exact h.not_lt_mem (he ▸ (by decide : '<' ∈ tySyncReturnVecU8))

/-- `ainsert` leaves exactly one binding of the inserted key. -/
theorem acount_ainsert_self {α : Type} (k : List Char) (v : α)
    (l : List (List Char × α)) : acount k (ainsert k v l) = 1 := by
  unfold acount ainsert
  rw [List.filter_cons]
  simp only [beq_self_eq_true, if_true]
  have : (l.filter (fun p => !(p.1 == k))).filter (fun p => p.1 == k) = [] := by
    rw [List.filter_filter]
    apply List.filter_eq_nil_iff.mpr
    intro p hp
    cases hpk : (p.1 == k) <;> simp [hpk]
  rw [List.filter_filter] at this ⊢
  simp only [List.length_cons]
  have h2 : (List.filter (fun p => p.1 == k && !(p.1 == k)) l).length = 0 := by
    rw [List.length_eq_zero]
    apply List.filter_eq_nil_iff.mpr
    intro p hp
    cases hpk : (p.1 == k) <;> simp [hpk]
  omega

theorem alookup_ainsert_self {α : Type} (k : List Char) (v : α)
    (l : List (List Char × α)) : alookup k (ainsert k v l) = some v := by
  unfold ainsert alookup
  rw [if_pos rfl]

/-! ## Part III: evaluation lemmas for the resolver chain -/

theorem try_parse_list_skip {n : Nat} {st : ParserState} {ty : List Char}
    (h : genericCaptures clsVec ty = none) :
    try_parse_list (n + 1) st ty = .ok (none, st) := by
  simp [try_parse_list, h]

theorem try_parse_box_skip {n : Nat} {st : ParserState} {ty : List Char}
    (h : genericCaptures clsBox ty = none) :
    try_parse_box (n + 1) st ty = .ok (none, st) := by
  simp [try_parse_box, h]

theorem try_parse_option_skip {n : Nat} {st : ParserState} {ty : List Char}
    (h : genericCaptures clsOption ty = none) :
    try_parse_option (n + 1) st ty = .ok (none, st) := by
  simp [try_parse_option, h]

theorem try_parse_struct_skip {n : Nat} {st : ParserState} {ty : List Char}
    (h : alookup ty st.src_struct_map = none) :
    try_parse_struct (n + 1) st ty = .ok (none, st) := by
  simp [try_parse_struct, h]

theorem try_parse_api_type_delegate_skip {n : Nat} {st : ParserState} {ty : List Char}
    (h1 : ty ≠ tySyncReturnVecU8) (h2 : ty ≠ tyString)
    (hz : genericCaptures clsZeroCopyBuffer ty = none) :
    try_parse_api_type_delegate (n + 1) st ty = .ok (none, st) := by
  simp [try_parse_api_type_delegate, h1, h2, hz]

theorem capture_ne_sync {cls ty i : List Char}
    (hc : genericCaptures cls ty = some i)
    (hd : genericCaptures cls tySyncReturnVecU8 = none) : ty ≠ tySyncReturnVecU8 := by
  intro he
  rw [he, hd] at hc
  exact absurd hc (by simp)

theorem capture_ne_string {cls ty i : List Char}
    (hc : genericCaptures cls ty = some i) : ty ≠ tyString := by
  intro he
  have hm := genericCaptures_lt_mem hc
  rw [he] at hm
  exact absurd hm (by decide)

/-- When neither the primitive table nor any delegate form applies, the
priority chain of `parse_type` starts at the list wrapper. -/
theorem parse_type_chain {n : Nat} {st : ParserState} {ty : List Char}
    (hp : ApiTypePrimitive.try_from_rust_str ty = none)
    (h1 : ty ≠ tySyncReturnVecU8) (h2 : ty ≠ tyString)
    (hz : genericCaptures clsZeroCopyBuffer ty = none) :
    parse_type (n + 1 + 1) st ty =
      orElseT (try_parse_list (n + 1) st ty) (fun st2 =>
      orElseT (try_parse_box (n + 1) st2 ty) (fun st3 =>
      orElseT (try_parse_option (n + 1) st3 ty) (fun st4 =>
      orElseT (try_parse_struct (n + 1) st4 ty) (fun _ =>
      .fail (.parseTypeFailed ty))))) := by
  have hd : try_parse_api_type_delegate (n + 1) st ty = .ok (none, st) :=
    try_parse_api_type_delegate_skip h1 h2 hz
  simp only [parse_type, hp, hd, orElseT]

/-- A list-wrapper expression resolves through `try_parse_list`. -/
theorem parse_type_list_eval {n : Nat} {st : ParserState} {ty i : List Char}
    (hc : genericCaptures clsVec ty = some i) :
    parse_type (n + 1 + 1) st ty =
      match parse_type n st i with
      | .ok (ApiType.Primitive p, st') => .ok (.PrimitiveList p, st')
      | .ok (other, st') => .ok (.GeneralList other, st')
      | .fail e => .fail e
      | .outOfFuel => .outOfFuel := by
  have hp := try_from_rust_str_eq_none_of_lt (genericCaptures_lt_mem hc)
  have h1 : ty ≠ tySyncReturnVecU8 := capture_ne_sync hc (by decide)
  have h2 : ty ≠ tyString := capture_ne_string hc
  have hz : genericCaptures clsZeroCopyBuffer ty = none :=
    genericCaptures_excl hc (by decide) (by decide) (by decide)
  rw [parse_type_chain hp h1 h2 hz]
  simp only [try_parse_list, hc]
  rcases hres : parse_type n st i with ⟨⟨t, st'⟩⟩ | e | _
  · cases t <;> simp [hres, orElseT]
  · simp [hres, orElseT]
  · simp [hres, orElseT]

/-- An indirection-wrapper expression resolves through `try_parse_box`. -/
theorem parse_type_box_eval {n : Nat} {st : ParserState} {ty i : List Char}
    (hc : genericCaptures clsBox ty = some i) :
    parse_type (n + 1 + 1) st ty =
      match parse_type n st i with
      | .ok (t, st') => .ok (.Boxed true t, st')
      | .fail e => .fail e
      | .outOfFuel => .outOfFuel := by
  have hp := try_from_rust_str_eq_none_of_lt (genericCaptures_lt_mem hc)
  have h1 : ty ≠ tySyncReturnVecU8 := capture_ne_sync hc (by decide)
  have h2 : ty ≠ tyString := capture_ne_string hc
  have hz : genericCaptures clsZeroCopyBuffer ty = none :=
    genericCaptures_excl hc (by decide) (by decide) (by decide)
  have hv : genericCaptures clsVec ty = none :=
    genericCaptures_excl hc (by decide) (by decide) (by decide)
  rw [parse_type_chain hp h1 h2 hz, try_parse_list_skip hv]
  simp only [orElseT, try_parse_box, hc]
  rcases hres : parse_type n st i with ⟨⟨t, st'⟩⟩ | e | _ <;> simp [hres, orElseT]

/-- An optional-wrapper expression resolves through `try_parse_option`. -/
theorem parse_type_option_eval {n : Nat} {st : ParserState} {ty i : List Char}
    (hc : genericCaptures clsOption ty = some i) :
    parse_type (n + 1 + 1) st ty =
      match genericCaptures clsOption i with
      | some io => .fail (.nestedOption io)
      | none =>
        match parse_type n st i with
        | .ok (ApiType.Primitive p, st') => .ok (.OptionalPrim p, st')
        | .ok (ApiType.StructRef nm, st') =>
          .ok (.OptionalPtr (.Boxed false (.StructRef nm)), st')
        | .ok (other, st') => .ok (.OptionalPtr other, st')
        | .fail e => .fail e
        | .outOfFuel => .outOfFuel := by
  have hp := try_from_rust_str_eq_none_of_lt (genericCaptures_lt_mem hc)
  have h1 : ty ≠ tySyncReturnVecU8 := capture_ne_sync hc (by decide)
  have h2 : ty ≠ tyString := capture_ne_string hc
  have hz : genericCaptures clsZeroCopyBuffer ty = none :=
    genericCaptures_excl hc (by decide) (by decide) (by decide)
  have hv : genericCaptures clsVec ty = none :=
    genericCaptures_excl hc (by decide) (by decide) (by decide)
  have hb : genericCaptures clsBox ty = none :=
    genericCaptures_excl hc (by decide) (by decide) (by decide)
  rw [parse_type_chain hp h1 h2 hz, try_parse_list_skip hv]
  simp only [orElseT]
  rw [try_parse_box_skip hb]
  simp only [orElseT, try_parse_option, hc]
  rcases hn : genericCaptures clsOption i with _ | io
  · rcases hres : parse_type n st i with ⟨⟨t, st'⟩⟩ | e | _
    · cases t <;> simp [hres, orElseT]
    · simp [hres, orElseT]
    · simp [hres, orElseT]
  · simp [orElseT]

/-- A known struct name resolves through `try_parse_struct`, memoized by
the in-progress set. -/
theorem parse_type_structname_eval {n : Nat} {st : ParserState} {S : List Char}
    (hv : ValidName S)
    (hp : ApiTypePrimitive.try_from_rust_str S = none)
    (hs : S ≠ tyString)
    (hm : (alookup S st.src_struct_map).isSome = true) :
    parse_type (n + 1 + 1) st S =
      if S ∈ st.parsing_or_parsed_struct_names then .ok (.StructRef S, st)
      else
        match parse_struct_core n
            { st with parsing_or_parsed_struct_names :=
                S :: st.parsing_or_parsed_struct_names } S with
        | .ok (s, st2) =>
          .ok (.StructRef S,
               { st2 with struct_pool := ainsert S s st2.struct_pool })
        | .fail e => .fail e
        | .outOfFuel => .outOfFuel := by
  have hnl : '<' ∉ S := hv.not_lt_mem
  have hnone : ∀ cls, genericCaptures cls S = none := fun cls =>
    genericCaptures_eq_none_of_not_lt hnl
  rw [parse_type_chain hp hv.try_from_ne_sync hs (hnone _),
      try_parse_list_skip (hnone _)]
  simp only [orElseT]
  rw [try_parse_box_skip (hnone _)]
  simp only [orElseT]
  rw [try_parse_option_skip (hnone _)]
  simp only [orElseT, try_parse_struct, hm, if_true]
  by_cases hmem : S ∈ st.parsing_or_parsed_struct_names
  · simp [hmem]
  · simp only [hmem, if_false, if_neg]
    rcases hres : parse_struct_core n
        { st with parsing_or_parsed_struct_names :=
            S :: st.parsing_or_parsed_struct_names } S with ⟨⟨s, st2⟩⟩ | e | _ <;>
      simp [hres]

theorem parse_type_zero {st : ParserState} {ty : List Char} :
    parse_type 0 st ty = .outOfFuel := rfl

theorem parse_type_one {st : ParserState} {ty : List Char}
    (hp : ApiTypePrimitive.try_from_rust_str ty = none) :
    parse_type 1 st ty = .outOfFuel := by
  rw [(rfl : (1 : Nat) = 0 + 1)]
  simp [parse_type, hp, try_parse_api_type_delegate, orElseT]

/-- A run that produced a value had fuel at least two (for any expression
outside the primitive table). -/
theorem parse_type_ok_fuel {st : ParserState} {ty : List Char}
    {r : ApiType × ParserState}
    (hp : ApiTypePrimitive.try_from_rust_str ty = none) :
    ∀ {f : Nat}, parse_type f st ty = .ok r → ∃ m, f = m + 1 + 1 := by
  intro f h
  match f with
  | 0 => exact absurd h (by rw [parse_type_zero]; simp)
  | 1 => exact absurd h (by rw [parse_type_one hp]; simp)
  | m + 2 => exact ⟨m, rfl⟩

/-! ## Part IV: claims about the type resolver -/

/-- The initial parser state over a given struct map. -/
def initState (smap : List (List Char × SrcItemStruct)) : ParserState :=
  { src_struct_map := smap, struct_pool := [],
    parsing_or_parsed_struct_names := [] }

/-- The empty parser state (no structs in the source file). -/
def emptyState : ParserState := initState []

/-- C3: a type expression of the optional-wrapper shape whose inner
expression itself matches the optional-wrapper shape never resolves to a
type node: for every fuel and state the resolver either runs out of fuel
(fuel < 2) or fails fatally with the nested-optionals error. -/
theorem claim_C3 (ty inner inner2 : List Char)
    (hc1 : genericCaptures clsOption ty = some inner)
    (hc2 : genericCaptures clsOption inner = some inner2) :
    ∀ (n : Nat) (st : ParserState),
      (∀ r, parse_type n st ty ≠ .ok r) ∧
      (2 ≤ n → parse_type n st ty = .fail (.nestedOption inner2)) := by
  intro n st
  have hp := try_from_rust_str_eq_none_of_lt (genericCaptures_lt_mem hc1)
  constructor
  · intro r h
    rcases parse_type_ok_fuel hp h with ⟨m, rfl⟩
    rw [parse_type_option_eval hc1] at h
    rw [hc2] at h
    exact absurd h (by simp)
  · intro hn
    obtain ⟨m, rfl⟩ : ∃ m, n = m + 1 + 1 := ⟨n - 2, by omega⟩
    rw [parse_type_option_eval hc1, hc2]

/-- C3 witness: `Option<Option<i32>>` fails with the nested-optionals
error. -/
theorem claim_C3_witness :
    parse_type 5 emptyState
        ['O', 'p', 't', 'i', 'o', 'n', '<', 'O', 'p', 't', 'i', 'o', 'n', '<',
         'i', '3', '2', '>', '>'] =
      .fail (.nestedOption ['i', '3', '2']) :=
  (claim_C3 _ ['O', 'p', 't', 'i', 'o', 'n', '<', 'i', '3', '2', '>']
      ['i', '3', '2'] (by decide) (by decide) 5 emptyState).2 (by omega)

/-- C7: a list-wrapper expression resolves to `PrimitiveList` exactly when
its inner expression resolves to a `Primitive`, and to `GeneralList` over
the inner node otherwise; in particular `Vec<u8>` gives `PrimitiveList`
with the 8-bit unsigned element kind. -/
theorem claim_C7 :
    (∀ (n : Nat) (st : ParserState) (ty i : List Char) (t : ApiType)
       (st' : ParserState),
       genericCaptures clsVec ty = some i →
       parse_type n st i = .ok (t, st') →
       parse_type (n + 1 + 1) st ty =
         .ok ((match t with
               | ApiType.Primitive p => ApiType.PrimitiveList p
               | other => ApiType.GeneralList other), st')) ∧
    (∀ (n : Nat) (st : ParserState),
       parse_type (n + 1 + 1 + 1) st (wrapGeneric clsVec ['u', '8']) =
         .ok (.PrimitiveList .u8, st)) := by
  constructor
  · intro n st ty i t st' hc hres
    rw [parse_type_list_eval hc, hres]
    cases t <;> rfl
  · intro n st
    have hc : genericCaptures clsVec (wrapGeneric clsVec ['u', '8']) =
        some ['u', '8'] := by decide
    rw [parse_type_list_eval hc]
    have hres : parse_type (n + 1) st ['u', '8'] =
        .ok (.Primitive .u8, st) := by
      have hu : ApiTypePrimitive.try_from_rust_str ['u', '8'] =
          some ApiTypePrimitive.u8 := by decide
      simp [parse_type, hu]
    rw [hres]

/-- C7 witness: `Vec<String>` (inner not a primitive) resolves to
`GeneralList` over the string delegate. -/
theorem claim_C7_witness :
    parse_type 4 emptyState
        ['V', 'e', 'c', '<', 'S', 't', 'r', 'i', 'n', 'g', '>'] =
      .ok (.GeneralList (.Delegate .String), emptyState) :=
  claim_C7.1 2 emptyState _ tyString (.Delegate .String) emptyState
    (by decide) (by decide)

/-- The C1 input: `pub fn f(a: i32) -> Result<String, E>`, whose declared
return type canonicalises to `Result<String,E>`. -/
def fnC1 : SrcFn :=
  { name := ['f'],
    inputs := [SrcArg.typed { pat := SrcPat.ident ['a'],
                              ty := ['i', '3', '2'], comments := [] }],
    output := SrcReturnType.ty
      ['R', 'e', 's', 'u', 'l', 't', '<', 'S', 't', 'r', 'i', 'n', 'g', ',',
       'E', '>'],
    comments := [] }

/-- C1 counterexample: the claim's two-argument fallible-result return
type `Result<String,E>` is not matched by the result shape matcher (its
character class has no comma), so the Function Resolver panics instead of
producing the claimed function node. -/
theorem claim_C1_counterexample :
    parse_function 10 emptyState fnC1 =
      .fail (.unsupportedTypeString
        ['R', 'e', 's', 'u', 'l', 't', '<', 'S', 't', 'r', 'i', 'n', 'g', ',',
         'E', '>']) := by
  decide

/-- C1 (amended): with the single-argument fallible-result return type
`Result<String>`, a function `name(a: i32)` with no stream-channel
parameter resolves to mode `Normal`, output `Delegate(String)`, and the
single input `a : Primitive(i32)`, leaving the parser state unchanged. -/
theorem claim_C1_amended (n : Nat) (st : ParserState) (nm a : List Char)
    (cs : List (List Char)) (cmts : List (List Char)) :
    parse_function (n + 1 + 1) st
      { name := nm,
        inputs := [SrcArg.typed { pat := SrcPat.ident a,
                                  ty := ['i', '3', '2'], comments := cs }],
        output := SrcReturnType.ty (wrapGeneric clsResult tyString),
        comments := cmts } =
      .ok ({ name := nm,
             inputs := [{ name := a, ty := .Primitive .i32, comments := cs }],
             output := .Delegate .String, mode := .Normal,
             comments := cmts }, st) := by
  have h1 : genericCaptures clsStreamSink ['i', '3', '2'] = none := by decide
  have h2 : ApiTypePrimitive.try_from_rust_str ['i', '3', '2'] =
      some ApiTypePrimitive.i32 := by decide
  have h3 : genericCaptures clsResult (wrapGeneric clsResult tyString) =
      some tyString := by decide
  have h4 : ApiTypePrimitive.try_from_rust_str tyString = none := by decide
  have h5 : tyString ≠ tySyncReturnVecU8 := by decide
  simp only [parse_function, walk_params, try_parse_stream_sink, h1, h3]
  simp only [parse_type, h2, h4, try_parse_api_type_delegate, h5, orElseT]
  simp

/-! ## Part V: state-evolution invariants of the resolver pack -/

/-- The struct map binds each name to the struct item carrying that
name (true of the extractor's output). -/
def MapConsistent (m : List (List Char × SrcItemStruct)) : Prop :=
  ∀ p ∈ m, (p.2).ident = p.1

/-- Every pool entry stores a struct node named after its key, and the
key is a key of the source struct map. -/
def PoolNamesOk (st : ParserState) : Prop :=
  ∀ p ∈ st.struct_pool, (p.2).name = p.1 ∧
    (alookup p.1 st.src_struct_map).isSome = true

/-- What one resolver call does to the state: the struct map is
untouched, the in-progress set only grows, and pool well-formedness is
preserved. -/
def StepOK (st st' : ParserState) : Prop :=
  st'.src_struct_map = st.src_struct_map ∧
  (∀ x ∈ st.parsing_or_parsed_struct_names,
     x ∈ st'.parsing_or_parsed_struct_names) ∧
  (MapConsistent st.src_struct_map → PoolNamesOk st → PoolNamesOk st')

theorem StepOK.refl {st : ParserState} : StepOK st st :=
  ⟨rfl, fun _ h => h, fun _ h => h⟩

theorem StepOK.trans {s1 s2 s3 : ParserState}
    (h12 : StepOK s1 s2) (h23 : StepOK s2 s3) : StepOK s1 s3 := by
  obtain ⟨m12, p12, q12⟩ := h12
  obtain ⟨m23, p23, q23⟩ := h23
  refine ⟨m23.trans m12, fun x hx => p23 x (p12 x hx), fun hm hp => ?_⟩
  exact q23 (by rw [m12]; exact hm) (q12 hm hp)

theorem orElseT_ok_cases {r : PResult (Option ApiType × ParserState)}
    {k : ParserState → PResult (ApiType × ParserState)} {t : ApiType}
    {st' : ParserState}
    (h : orElseT r k = .ok (t, st')) :
    r = .ok (some t, st') ∨ ∃ st0, r = .ok (none, st0) ∧ k st0 = .ok (t, st') := by
  rcases r with ⟨⟨o, s⟩⟩ | e | _
  · rcases o with _ | v
    · exact Or.inr ⟨s, rfl, h⟩
    · simp only [orElseT] at h
      cases h
      exact Or.inl rfl
  · simp [orElseT] at h
  · simp [orElseT] at h

/-- The joint preservation statement for the mutually recursive pack,
proved by induction on the fuel. -/
theorem pack_StepOK : ∀ n : Nat,
    (∀ st ty r st', parse_type n st ty = .ok (r, st') → StepOK st st') ∧
    (∀ st ty o st', try_parse_api_type_delegate n st ty = .ok (o, st') →
       StepOK st st') ∧
    (∀ st ty o st', try_parse_list n st ty = .ok (o, st') → StepOK st st') ∧
    (∀ st ty o st', try_parse_box n st ty = .ok (o, st') → StepOK st st') ∧
    (∀ st ty o st', try_parse_option n st ty = .ok (o, st') → StepOK st st') ∧
    (∀ st ty o st', try_parse_struct n st ty = .ok (o, st') → StepOK st st') ∧
    (∀ st ty r st', parse_struct_core n st ty = .ok (r, st') →
       StepOK st st' ∧ (MapConsistent st.src_struct_map → r.name = ty)) ∧
    (∀ st fs idx r st', parse_fields n st fs idx = .ok (r, st') →
       StepOK st st') := by
  intro n
  induction n with
  | zero =>
    refine ⟨fun st ty r st' h => ?_, fun st ty o st' h => ?_,
            fun st ty o st' h => ?_, fun st ty o st' h => ?_,
            fun st ty o st' h => ?_, fun st ty o st' h => ?_,
            fun st ty r st' h => ?_, fun st fs idx r st' h => ?_⟩ <;>
      simp [parse_type, try_parse_api_type_delegate, try_parse_list,
            try_parse_box, try_parse_option, try_parse_struct,
            parse_struct_core, parse_fields] at h
  | succ n ih =>
    obtain ⟨ihT, ihD, ihL, ihB, ihO, ihS, ihC, ihF⟩ := ih
    refine ⟨?_, ?_, ?_, ?_, ?_, ?_, ?_, ?_⟩
    -- parse_type
    · intro st ty r st' h
      simp only [parse_type] at h
      rcases hpr : ApiTypePrimitive.try_from_rust_str ty with _ | p
      · simp only [hpr] at h
        rcases orElseT_ok_cases h with hD | ⟨s1, hD, h⟩
        · exact ihD _ _ _ _ hD
        · have step1 := ihD _ _ _ _ hD
          rcases orElseT_ok_cases h with hL | ⟨s2, hL, h⟩
          · exact step1.trans (ihL _ _ _ _ hL)
          · have step2 := step1.trans (ihL _ _ _ _ hL)
            rcases orElseT_ok_cases h with hB | ⟨s3, hB, h⟩
            · exact step2.trans (ihB _ _ _ _ hB)
            · have step3 := step2.trans (ihB _ _ _ _ hB)
              rcases orElseT_ok_cases h with hO | ⟨s4, hO, h⟩
              · exact step3.trans (ihO _ _ _ _ hO)
              · have step4 := step3.trans (ihO _ _ _ _ hO)
                rcases orElseT_ok_cases h with hS | ⟨s5, hS, h⟩
                · exact step4.trans (ihS _ _ _ _ hS)
                · cases h
      · simp only [hpr] at h
        cases h
        exact StepOK.refl
    -- try_parse_api_type_delegate
    · intro st ty o st' h
      simp only [try_parse_api_type_delegate] at h
      split at h
      · cases h; exact StepOK.refl
      · split at h
        · cases h; exact StepOK.refl
        · split at h
          · split at h
            · rename_i heq
              cases h
              exact ihL _ _ _ _ heq
            · rename_i hne heq
              cases h
              exact ihL _ _ _ _ heq
            · cases h
            · cases h
          · cases h; exact StepOK.refl
    -- try_parse_list
    · intro st ty o st' h
      simp only [try_parse_list] at h
      split at h
      · split at h
        · rename_i heq
          cases h
          exact ihT _ _ _ _ heq
        · rename_i hne heq
          cases h
          exact ihT _ _ _ _ heq
        · cases h
        · cases h
      · cases h; exact StepOK.refl
    -- try_parse_box
    · intro st ty o st' h
      simp only [try_parse_box] at h
      split at h
      · split at h
        · rename_i heq
          cases h
          exact ihT _ _ _ _ heq
        · cases h
        · cases h
      · cases h; exact StepOK.refl
    -- try_parse_option
    · intro st ty o st' h
      simp only [try_parse_option] at h
      split at h
      · split at h
        · cases h
        · split at h
          · rename_i heq
            cases h
            exact ihT _ _ _ _ heq
          · rename_i heq
            cases h
            exact ihT _ _ _ _ heq
          · rename_i hne1 hne2 heq
            cases h
            exact ihT _ _ _ _ heq
          · cases h
          · cases h
      · cases h; exact StepOK.refl
    -- try_parse_struct
    · intro st ty o st' h
      simp only [try_parse_struct] at h
      split at h
      · rename_i hsome
        split at h
        · cases h; exact StepOK.refl
        · rename_i hnot
          split at h
          · rename_i s st2 heq
            cases h
            have hcore := ihC _ _ _ _ heq
            obtain ⟨⟨hmap2, hmono2, hpool2⟩, hname⟩ := hcore
            refine ⟨hmap2, fun x hx => hmono2 x (List.mem_cons_of_mem _ hx),
                    fun hm hp => ?_⟩
            have hm1 : MapConsistent
                ({ st with parsing_or_parsed_struct_names :=
                    ty :: st.parsing_or_parsed_struct_names } :
                  ParserState).src_struct_map := hm
            have hp1 : PoolNamesOk
                { st with parsing_or_parsed_struct_names :=
                    ty :: st.parsing_or_parsed_struct_names } := hp
            have hp2 := hpool2 hm1 hp1
            intro q hq
            simp only [ainsert, List.mem_cons] at hq
            rcases hq with rfl | hq
            · exact ⟨hname hm1, by rw [hmap2]; exact hsome⟩
            · exact hp2 q (List.mem_of_mem_filter hq)
          · cases h
          · cases h
      · cases h; exact StepOK.refl
    -- parse_struct_core
    · intro st ty r st' h
      simp only [parse_struct_core] at h
      split at h
      · cases h
      · rename_i item hlook
        split at h
        · cases h
        · split at h
          · rename_i fs apiFields st2 heq
            cases h
            refine ⟨ihF _ _ _ _ _ heq, fun hm => ?_⟩
            exact hm _ (alookup_mem hlook)
          · cases h
          · cases h
        · split at h
          · rename_i fs apiFields st2 heq
            cases h
            refine ⟨ihF _ _ _ _ _ heq, fun hm => ?_⟩
            exact hm _ (alookup_mem hlook)
          · cases h
          · cases h
    -- parse_fields
    · intro st fs idx r st' h
      cases fs with
      | nil =>
        simp only [parse_fields] at h
        cases h
        exact StepOK.refl
      | cons f fs' =>
        simp only [parse_fields] at h
        split at h
        · rename_i t st1 heq
          split at h
          · rename_i rest st2 heq2
            cases h
            exact (ihT _ _ _ _ heq).trans (ihF _ _ _ _ _ heq2)
          · cases h
          · cases h
        · cases h
        · cases h

theorem parse_type_StepOK {n : Nat} {st : ParserState} {ty : List Char}
    {r : ApiType} {st' : ParserState}
    (h : parse_type n st ty = .ok (r, st')) : StepOK st st' :=
  (pack_StepOK n).1 _ _ _ _ h

theorem try_parse_struct_StepOK {n : Nat} {st : ParserState} {ty : List Char}
    {o : Option ApiType} {st' : ParserState}
    (h : try_parse_struct n st ty = .ok (o, st')) : StepOK st st' :=
  (pack_StepOK n).2.2.2.2.2.1 _ _ _ _ h

theorem parse_struct_core_StepOK {n : Nat} {st : ParserState} {ty : List Char}
    {r : ApiStruct} {st' : ParserState}
    (h : parse_struct_core n st ty = .ok (r, st')) : StepOK st st' :=
  ((pack_StepOK n).2.2.2.2.2.2.1 _ _ _ _ h).1

theorem parse_fields_StepOK {n : Nat} {st : ParserState} {fs : List SrcField}
    {idx : Nat} {r : List ApiField} {st' : ParserState}
    (h : parse_fields n st fs idx = .ok (r, st')) : StepOK st st' :=
  (pack_StepOK n).2.2.2.2.2.2.2 _ _ _ _ _ h

/-! ## Part VI: claims about struct resolution -/

/-- A successful resolution of a known struct name yields a by-name
`StructRef`. -/
theorem parse_type_structname_ok {n : Nat} {st : ParserState} {S : List Char}
    {tS : ApiType} {stS : ParserState}
    (hv : ValidName S) (hp : ApiTypePrimitive.try_from_rust_str S = none)
    (hs : S ≠ tyString) (hm : (alookup S st.src_struct_map).isSome = true)
    (h : parse_type n st S = .ok (tS, stS)) : tS = .StructRef S := by
  rcases parse_type_ok_fuel hp h with ⟨m, rfl⟩
  rw [parse_type_structname_eval hv hp hs hm] at h
  by_cases hmem : S ∈ st.parsing_or_parsed_struct_names
  · rw [if_pos hmem] at h
    cases h
    rfl
  · rw [if_neg hmem] at h
    split at h
    · cases h; rfl
    · cases h
    · cases h

/-- C4: for a known public struct name `S` whose resolution succeeds, the
result is `StructRef S`; resolving `Option<S>` yields `Optional` in
pointer representation over a synthesized `Boxed` with
`exist_in_real_api = false`, while resolving `Box<S>` yields `Boxed` with
`exist_in_real_api = true` — the two results differ exactly in that
flag. -/
theorem claim_C4 (n : Nat) (st : ParserState) (S : List Char)
    (tS : ApiType) (stS : ParserState)
    (hv : ValidName S)
    (hp : ApiTypePrimitive.try_from_rust_str S = none)
    (hs : S ≠ tyString)
    (hm : (alookup S st.src_struct_map).isSome = true)
    (hrun : parse_type n st S = .ok (tS, stS)) :
    tS = .StructRef S ∧
    parse_type (n + 1 + 1) st (wrapGeneric clsOption S) =
      .ok (.OptionalPtr (.Boxed false (.StructRef S)), stS) ∧
    parse_type (n + 1 + 1) st (wrapGeneric clsBox S) =
      .ok (.Boxed true (.StructRef S), stS) := by
  have htS := parse_type_structname_ok hv hp hs hm hrun
  subst htS
  have hwrapO : genericCaptures clsOption (wrapGeneric clsOption S) = some S :=
    genericCaptures_wrap (by decide) hv.1 hv.2
  have hwrapB : genericCaptures clsBox (wrapGeneric clsBox S) = some S :=
    genericCaptures_wrap (by decide) hv.1 hv.2
  have hSnone : genericCaptures clsOption S = none :=
    genericCaptures_eq_none_of_not_lt hv.not_lt_mem
  refine ⟨rfl, ?_, ?_⟩
  · rw [parse_type_option_eval hwrapO, hSnone, hrun]
  · rw [parse_type_box_eval hwrapB, hrun]

/-- Concrete inputs for the C4 witness. -/
def sMy : List Char := ['M', 'y', 'S', 't', 'r', 'u', 'c', 't']

def itemMy : SrcItemStruct := { ident := sMy, fields := .named [], comments := [] }

def stMy : ParserState :=
  { src_struct_map := [(sMy, itemMy)], struct_pool := [],
    parsing_or_parsed_struct_names := [sMy] }

/-- C4 witness at the struct name `MyStruct`. -/
theorem claim_C4_witness :
    ApiType.StructRef sMy = .StructRef sMy ∧
    parse_type 4 stMy (wrapGeneric clsOption sMy) =
      .ok (.OptionalPtr (.Boxed false (.StructRef sMy)), stMy) ∧
    parse_type 4 stMy (wrapGeneric clsBox sMy) =
      .ok (.Boxed true (.StructRef sMy), stMy) :=
  claim_C4 2 stMy sMy (.StructRef sMy) stMy ⟨by decide, by decide⟩
    (by decide) (by decide) (by decide) (by decide)

/-- C5: within one pass, the first resolution of a not-yet-requested
struct name returns `StructRef` and leaves exactly one pool entry under
that name; a second resolution of the same name returns an equal
`StructRef` and does not change the state at all. -/
theorem claim_C5 (n m : Nat) (st : ParserState) (S : List Char)
    (o₁ o₂ : Option ApiType) (st₁ st₂ : ParserState)
    (hm : (alookup S st.src_struct_map).isSome = true)
    (hnotyet : S ∉ st.parsing_or_parsed_struct_names)
    (h1 : try_parse_struct n st S = .ok (o₁, st₁))
    (h2 : try_parse_struct m st₁ S = .ok (o₂, st₂)) :
    o₁ = some (.StructRef S) ∧ o₂ = some (.StructRef S) ∧
    st₂ = st₁ ∧ acount S st₁.struct_pool = 1 ∧
    S ∈ st₁.parsing_or_parsed_struct_names := by
  rcases n with _ | n
  · exact absurd h1 (by simp [try_parse_struct])
  simp only [try_parse_struct, hm, if_true] at h1
  rw [if_neg hnotyet] at h1
  split at h1
  case _ s st2c heqc =>
    cases h1
    have hstep := parse_struct_core_StepOK heqc
    have hSmem : S ∈ st2c.parsing_or_parsed_struct_names :=
      hstep.2.1 S (List.mem_cons_self _ _)
    have hmap2 : st2c.src_struct_map = st.src_struct_map := hstep.1
    refine ⟨rfl, ?_, ?_, ?_, ?_⟩
    · -- second call takes the memoized fast path
      rcases m with _ | m
      · exact absurd h2 (by simp [try_parse_struct])
      · simp only [try_parse_struct, hmap2, hm, if_true] at h2
        rw [if_pos hSmem] at h2
        cases h2
        rfl
    · rcases m with _ | m
      · exact absurd h2 (by simp [try_parse_struct])
      · simp only [try_parse_struct, hmap2, hm, if_true] at h2
        rw [if_pos hSmem] at h2
        cases h2
        rw [hmap2]
    · exact acount_ainsert_self S s st2c.struct_pool
    · exact hSmem
  case _ => cases h1
  case _ => cases h1

def apsMy : ApiStruct :=
  { name := sMy, fields := [], is_fields_named := true, comments := [] }

def stMy2 : ParserState :=
  { src_struct_map := [(sMy, itemMy)], struct_pool := [(sMy, apsMy)],
    parsing_or_parsed_struct_names := [sMy] }

/-- C5 witness: resolving `MyStruct` twice from a fresh state. -/
theorem claim_C5_witness :
    some (ApiType.StructRef sMy) = some (.StructRef sMy) ∧
    some (ApiType.StructRef sMy) = some (.StructRef sMy) ∧
    stMy2 = stMy2 ∧ acount sMy stMy2.struct_pool = 1 ∧
    sMy ∈ stMy2.parsing_or_parsed_struct_names :=
  claim_C5 5 5 (initState [(sMy, itemMy)]) sMy (some (.StructRef sMy))
    (some (.StructRef sMy)) stMy2 stMy2 (by decide) (by decide)
    (by decide) (by decide)

theorem lt_mem_wrapGeneric (cls S : List Char) : '<' ∈ wrapGeneric cls S := by
  unfold wrapGeneric
  exact List.mem_append_right _ (List.mem_cons_self _ _)

/-- Resolving the indirection wrapper over a name that is already in
progress succeeds immediately with the state unchanged: this is the
recursion guard that makes self-referential structs resolvable. -/
theorem parse_type_boxself_fuel {m : Nat} {stA : ParserState} {S : List Char}
    (hv : ValidName S) (hp : ApiTypePrimitive.try_from_rust_str S = none)
    (hs : S ≠ tyString)
    (hmem : S ∈ stA.parsing_or_parsed_struct_names)
    (hmA : (alookup S stA.src_struct_map).isSome = true) :
    parse_type (m + 1 + 1 + 1 + 1) stA (wrapGeneric clsBox S) =
      .ok (.Boxed true (.StructRef S), stA) := by
  have hwrap : genericCaptures clsBox (wrapGeneric clsBox S) = some S :=
    genericCaptures_wrap (by decide) hv.1 hv.2
  rw [parse_type_box_eval hwrap,
      parse_type_structname_eval hv hp hs hmA, if_pos hmem]

/-- Any successful resolution of the indirection wrapper over an
in-progress name returns the boxed self-reference without touching the
state. -/
theorem parse_type_boxself_ok {f : Nat} {stA : ParserState} {S : List Char}
    {t : ApiType} {stC : ParserState}
    (hv : ValidName S) (hp : ApiTypePrimitive.try_from_rust_str S = none)
    (hs : S ≠ tyString)
    (hmem : S ∈ stA.parsing_or_parsed_struct_names)
    (hmA : (alookup S stA.src_struct_map).isSome = true)
    (h : parse_type f stA (wrapGeneric clsBox S) = .ok (t, stC)) :
    t = .Boxed true (.StructRef S) ∧ stC = stA := by
  have hwrap : genericCaptures clsBox (wrapGeneric clsBox S) = some S :=
    genericCaptures_wrap (by decide) hv.1 hv.2
  have hpw : ApiTypePrimitive.try_from_rust_str (wrapGeneric clsBox S) = none :=
    try_from_rust_str_eq_none_of_lt (lt_mem_wrapGeneric _ _)
  rcases parse_type_ok_fuel hpw h with ⟨m, rfl⟩
  rw [parse_type_box_eval hwrap] at h
  split at h
  case _ t' stB heq =>
    rcases parse_type_ok_fuel hp heq with ⟨q, rfl⟩
    rw [parse_type_structname_eval hv hp hs (by rw [hmA]), if_pos hmem] at heq
    cases heq
    cases h
    exact ⟨rfl, rfl⟩
  case _ => cases h
  case _ => cases h

/-- The field loop resolves the `k`-th field's type expression from a
state that extends the initial one (same struct map, larger in-progress
set). -/
theorem parse_fields_trace :
    ∀ (fs : List SrcField) (n : Nat) (st : ParserState) (idx : Nat)
      (afs : List ApiField) (st' : ParserState),
      parse_fields n st fs idx = .ok (afs, st') →
      ∀ (k : Nat) (fld : SrcField), fs.get? k = some fld →
      ∃ (m : Nat) (stA stB : ParserState) (afld : ApiField),
        afs.get? k = some afld ∧
        parse_type m stA fld.ty = .ok (afld.ty, stB) ∧
        stA.src_struct_map = st.src_struct_map ∧
        (∀ x ∈ st.parsing_or_parsed_struct_names,
           x ∈ stA.parsing_or_parsed_struct_names) := by
  intro fs
  induction fs with
  | nil =>
    intro n st idx afs st' h k fld hk
    exact absurd hk (by simp)
  | cons f fs' ih =>
    intro n st idx afs st' h k fld hk
    rcases n with _ | n
    · exact absurd h (by simp [parse_fields])
    simp only [parse_fields] at h
    rcases heq : parse_type n st f.ty with ⟨⟨t, st1⟩⟩ | e | _
    · simp only [heq] at h
      rcases heq2 : parse_fields n st1 fs' (idx + 1) with ⟨⟨rest, st2⟩⟩ | e2 | _
      · simp only [heq2] at h
        cases h
        rcases k with _ | k
        · simp only [List.get?] at hk
          cases hk
          exact ⟨n, st, st1, _, rfl, heq, rfl, fun x hx => hx⟩
        · simp only [List.get?] at hk
          obtain ⟨m, stA, stB, afld, hget, hrun, hmap, hmono⟩ :=
            ih n st1 (idx + 1) _ _ heq2 k fld hk
          have hstep := parse_type_StepOK heq
          exact ⟨m, stA, stB, afld, hget, hrun, hmap.trans hstep.1,
                 fun x hx => hmono x (hstep.2.1 x hx)⟩
      · simp only [heq2] at h
        cases h
      · simp only [heq2] at h
        cases h
    · simp only [heq] at h
      cases h
    · simp only [heq] at h
      cases h

/-- C6: a public struct with a field typed as the indirection wrapper
over its own name resolves without unbounded recursion: any successful
resolution of the name produces a pool entry whose corresponding field
is `Boxed(exist_in_real_api = true, StructRef(same name))`, and while
the name is in progress the boxed self-reference resolves in constantly
many steps with the state unchanged. -/
theorem claim_C6 (n : Nat) (st : ParserState) (S : List Char)
    (item : SrcItemStruct) (fs : List SrcField) (k : Nat) (fld : SrcField)
    (tS : ApiType) (stS : ParserState)
    (hv : ValidName S)
    (hp : ApiTypePrimitive.try_from_rust_str S = none)
    (hs : S ≠ tyString)
    (hm : alookup S st.src_struct_map = some item)
    (hfs : item.fields = SrcFields.named fs ∨ item.fields = SrcFields.unnamed fs)
    (hk : fs.get? k = some fld)
    (hfld : fld.ty = wrapGeneric clsBox S)
    (hnotyet : S ∉ st.parsing_or_parsed_struct_names)
    (hrun : parse_type n st S = .ok (tS, stS)) :
    (∃ (aps : ApiStruct) (afld : ApiField),
       alookup S stS.struct_pool = some aps ∧
       aps.fields.get? k = some afld ∧
       afld.ty = .Boxed true (.StructRef S)) ∧
    (∀ (m : Nat) (stA : ParserState),
       S ∈ stA.parsing_or_parsed_struct_names →
       (alookup S stA.src_struct_map).isSome = true →
       parse_type (m + 1 + 1 + 1 + 1) stA (wrapGeneric clsBox S) =
         .ok (.Boxed true (.StructRef S), stA)) := by
  have hmS : (alookup S st.src_struct_map).isSome = true := by rw [hm]; rfl
  constructor
  · rcases parse_type_ok_fuel hp hrun with ⟨q, rfl⟩
    rw [parse_type_structname_eval hv hp hs hmS, if_neg hnotyet] at hrun
    rcases heqc : parse_struct_core q
        { st with parsing_or_parsed_struct_names :=
            S :: st.parsing_or_parsed_struct_names } S
      with ⟨⟨aps, st2⟩⟩ | e | _
    · simp only [heqc] at hrun
      cases hrun
      rcases q with _ | q
      · exact absurd heqc (by simp [parse_struct_core])
      simp only [parse_struct_core, hm] at heqc
      rcases hfs with hfs | hfs <;> simp only [hfs] at heqc
      · rcases heqf : parse_fields q
            { st with parsing_or_parsed_struct_names :=
                S :: st.parsing_or_parsed_struct_names } fs 0
          with ⟨⟨afs, st2'⟩⟩ | e2 | _
        · simp only [heqf] at heqc
          cases heqc
          obtain ⟨m, stA, stB, afld, hget, hrunf, hmapA, hmonoA⟩ :=
            parse_fields_trace fs q _ 0 _ _ heqf k fld hk
          rw [hfld] at hrunf
          have hmemA : S ∈ stA.parsing_or_parsed_struct_names :=
            hmonoA S (List.mem_cons_self _ _)
          have hmA : (alookup S stA.src_struct_map).isSome = true := by
            rw [hmapA]; exact hmS
          obtain ⟨hty, _⟩ := parse_type_boxself_ok hv hp hs hmemA hmA hrunf
          exact ⟨_, afld, alookup_ainsert_self _ _ _, hget, hty⟩
        · simp only [heqf] at heqc
          cases heqc
        · simp only [heqf] at heqc
          cases heqc
      · rcases heqf : parse_fields q
            { st with parsing_or_parsed_struct_names :=
                S :: st.parsing_or_parsed_struct_names } fs 0
          with ⟨⟨afs, st2'⟩⟩ | e2 | _
        · simp only [heqf] at heqc
          cases heqc
          obtain ⟨m, stA, stB, afld, hget, hrunf, hmapA, hmonoA⟩ :=
            parse_fields_trace fs q _ 0 _ _ heqf k fld hk
          rw [hfld] at hrunf
          have hmemA : S ∈ stA.parsing_or_parsed_struct_names :=
            hmonoA S (List.mem_cons_self _ _)
          have hmA : (alookup S stA.src_struct_map).isSome = true := by
            rw [hmapA]; exact hmS
          obtain ⟨hty, _⟩ := parse_type_boxself_ok hv hp hs hmemA hmA hrunf
          exact ⟨_, afld, alookup_ainsert_self _ _ _, hget, hty⟩
        · simp only [heqf] at heqc
          cases heqc
        · simp only [heqf] at heqc
          cases heqc
    · simp only [heqc] at hrun
      cases hrun
    · simp only [heqc] at hrun
      cases hrun
  · intro m stA hmemA hmA
    exact parse_type_boxself_fuel hv hp hs hmemA hmA

/-- Concrete inputs for the C6 witness: `pub struct Node { next: Box<Node> }`. -/
def sNode : List Char := ['N', 'o', 'd', 'e']

def fldNext : SrcField :=
  { ident := some ['n', 'e', 'x', 't'], ty := wrapGeneric clsBox sNode,
    comments := [] }

def itemNode : SrcItemStruct :=
  { ident := sNode, fields := .named [fldNext], comments := [] }

def apsNode : ApiStruct :=
  { name := sNode,
    fields := [{ name := ['n', 'e', 'x', 't'],
                 ty := .Boxed true (.StructRef sNode), comments := [] }],
    is_fields_named := true, comments := [] }

def stNode : ParserState := initState [(sNode, itemNode)]

def stNode2 : ParserState :=
  { src_struct_map := [(sNode, itemNode)], struct_pool := [(sNode, apsNode)],
    parsing_or_parsed_struct_names := [sNode] }

/-- C6 witness: with `Node` in progress, its boxed self-reference
resolves immediately to `Boxed true (StructRef Node)` with the state
untouched; every hypothesis is discharged on the concrete `Node` run. -/
theorem claim_C6_witness :
    parse_type (2 + 1 + 1 + 1 + 1) stNode2 (wrapGeneric clsBox sNode) =
      .ok (.Boxed true (.StructRef sNode), stNode2) :=
  (claim_C6 8 stNode sNode itemNode [fldNext] 0 fldNext (.StructRef sNode)
      stNode2 ⟨by decide, by decide⟩ (by decide) (by decide) (by decide)
      (Or.inl rfl) rfl rfl (by decide) (by decide)).2 2 stNode2
    (by decide) (by decide)

/-! ## Part VII: the extractor and the assembled document -/

theorem alookup_isSome_of_mem {α : Type} {k : List Char} {v : α} :
    ∀ {l : List (List Char × α)}, (k, v) ∈ l → (alookup k l).isSome = true := by
  intro l
  induction l with
  | nil => intro h; exact absurd h (by simp)
  | cons p rest ih =>
    intro h
    unfold alookup
    rcases p with ⟨k', v'⟩
    by_cases he : k' = k
    · rw [if_pos he]; rfl
    · rw [if_neg he]
      rcases List.mem_cons.mp h with heq | hmem
      · cases heq; exact absurd rfl he
      · exact ih hmem

theorem alookup_ainsert_isSome_cases {α : Type} {k k' : List Char} {v : α}
    {l : List (List Char × α)}
    (h : (alookup k (ainsert k' v l)).isSome = true) :
    k = k' ∨ (alookup k l).isSome = true := by
  unfold ainsert alookup at h
  by_cases he : k' = k
  · exact Or.inl he.symm
  · rw [if_neg he] at h
    obtain ⟨w, hw⟩ := Option.isSome_iff_exists.mp h
    have hmem := alookup_mem hw
    exact Or.inr (alookup_isSome_of_mem (List.mem_of_mem_filter hmem))

/-- The names of the publicly visible structs, read off the item list. -/
def pubStructNames : List SrcItem → List (List Char)
  | [] => []
  | SrcItem.structItem true s :: rest => s.ident :: pubStructNames rest
  | _ :: rest => pubStructNames rest

theorem extract_go_consistent :
    ∀ (items : List SrcItem) (fns : List SrcFn)
      (smap : List (List Char × SrcItemStruct)),
      MapConsistent smap → MapConsistent (extract_items_go items fns smap).2 := by
  intro items
  induction items with
  | nil => intro fns smap h; exact h
  | cons it rest ih =>
    intro fns smap h
    cases it with
    | fn isPub f =>
      simp only [extract_items_go]
      exact ih _ _ h
    | structItem isPub s =>
      simp only [extract_items_go]
      apply ih
      cases isPub with
      | false => exact h
      | true =>
        simp only [if_true]
        intro p hp
        rcases List.mem_cons.mp hp with rfl | hp
        · rfl
        · exact h p (List.mem_of_mem_filter hp)
    | other =>
      simp only [extract_items_go]
      exact ih _ _ h

theorem extract_go_keys :
    ∀ (items : List SrcItem) (fns : List SrcFn)
      (smap : List (List Char × SrcItemStruct)) (k : List Char),
      (alookup k (extract_items_go items fns smap).2).isSome = true →
      k ∈ pubStructNames items ∨ (alookup k smap).isSome = true := by
  intro items
  induction items with
  | nil => intro fns smap k h; exact Or.inr h
  | cons it rest ih =>
    intro fns smap k h
    cases it with
    | fn isPub f =>
      simp only [extract_items_go] at h
      simp only [pubStructNames]
      exact ih _ _ _ h
    | structItem isPub s =>
      simp only [extract_items_go] at h
      cases isPub with
      | false =>
        simp only [pubStructNames]
        exact ih _ _ _ h
      | true =>
        simp only [if_true] at h
        rcases ih _ _ _ h with hname | hlook
        · exact Or.inl (List.mem_cons_of_mem _ hname)
        · rcases alookup_ainsert_isSome_cases hlook with rfl | hsm
          · exact Or.inl (List.mem_cons_self _ _)
          · exact Or.inr hsm
    | other =>
      simp only [extract_items_go] at h
      simp only [pubStructNames]
      exact ih _ _ _ h

theorem try_parse_stream_sink_StepOK {n : Nat} {st : ParserState}
    {ty : List Char} {o : Option ApiType} {st' : ParserState}
    (h : try_parse_stream_sink n st ty = .ok (o, st')) : StepOK st st' := by
  unfold try_parse_stream_sink at h
  rcases hc : genericCaptures clsStreamSink ty with _ | inner <;>
    simp only [hc] at h
  · cases h; exact StepOK.refl
  · rcases hr : parse_type n st inner with ⟨⟨t, st1⟩⟩ | e | _ <;>
      simp only [hr] at h
    · cases h; exact parse_type_StepOK hr
    · cases h
    · cases h

theorem walk_params_StepOK {n : Nat} :
    ∀ (args : List SrcArg) (st : ParserState) (acc : List ApiField)
      (out : Option ApiType) (mode : Option ApiFuncMode)
      (res : List ApiField × Option ApiType × Option ApiFuncMode)
      (st' : ParserState),
      walk_params n st args acc out mode = .ok (res, st') → StepOK st st' := by
  intro args
  induction args with
  | nil =>
    intro st acc out mode res st' h
    simp only [walk_params] at h
    cases h
    exact StepOK.refl
  | cons a rest ih =>
    intro st acc out mode res st' h
    cases a with
    | receiver => simp [walk_params] at h
    | typed p =>
      simp only [walk_params] at h
      rcases hpat : p.pat with nm | _ <;> simp only [hpat] at h
      case _ =>
        rcases hss : try_parse_stream_sink n st p.ty with ⟨⟨o1, st1⟩⟩ | e | _ <;>
          simp only [hss] at h
        · rcases o1 with _ | t
          · rcases hr : parse_type n st1 p.ty with ⟨⟨t, st2⟩⟩ | e | _ <;>
              simp only [hr] at h
            · exact ((try_parse_stream_sink_StepOK hss).trans
                (parse_type_StepOK hr)).trans (ih _ _ _ _ _ _ h)
            · cases h
            · cases h
          · exact (try_parse_stream_sink_StepOK hss).trans (ih _ _ _ _ _ _ h)
        · cases h
        · cases h
      case _ => cases h

theorem parse_function_StepOK {n : Nat} {st : ParserState} {func : SrcFn}
    {af : ApiFunc} {st' : ParserState}
    (h : parse_function n st func = .ok (af, st')) : StepOK st st' := by
  unfold parse_function at h
  rcases hw : walk_params n st func.inputs [] none none
    with ⟨⟨⟨inputs, out?, mode?⟩, st1⟩⟩ | e | _ <;> simp only [hw] at h
  · have hstep1 := walk_params_StepOK _ _ _ _ _ _ _ hw
    rcases out? with _ | o
    · rcases hout : func.output with _ | tyStr <;> simp only [hout] at h
      · cases h
      · rcases hcap : genericCaptures clsResult tyStr with _ | inner <;>
          simp only [hcap] at h
        · cases h
        · rcases hr : parse_type n st1 inner with ⟨⟨t, st2⟩⟩ | e | _ <;>
            simp only [hr] at h
          · cases h; exact hstep1.trans (parse_type_StepOK hr)
          · cases h
          · cases h
    · rcases mode? with _ | m
      · simp at h
      · simp only at h
        cases h
        exact hstep1
  · cases h
  · cases h

theorem parse_funcs_StepOK {n : Nat} :
    ∀ (fns : List SrcFn) (st : ParserState) (afs : List ApiFunc)
      (st' : ParserState),
      parse_funcs n st fns = .ok (afs, st') → StepOK st st' := by
  intro fns
  induction fns with
  | nil =>
    intro st afs st' h
    simp only [parse_funcs] at h
    cases h
    exact StepOK.refl
  | cons f rest ih =>
    intro st afs st' h
    simp only [parse_funcs] at h
    rcases hf : parse_function n st f with ⟨⟨af, st1⟩⟩ | e | _ <;>
      simp only [hf] at h
    · rcases hr : parse_funcs n st1 rest with ⟨⟨afs2, st2⟩⟩ | e | _ <;>
        simp only [hr] at h
      · cases h; exact (parse_function_StepOK hf).trans (ih _ _ _ hr)
      · cases h
      · cases h
    · cases h
    · cases h

/-- C10: every entry of the produced document's struct pool stores a
struct node whose name equals its key, and that key is the name of a
publicly visible struct of the source file. -/
theorem claim_C10 (n : Nat) (src : List Char) (items : List SrcItem)
    (doc : ApiFile) (h : parse n src items = .ok doc) :
    ∀ p ∈ doc.struct_pool, (p.2).name = p.1 ∧ p.1 ∈ pubStructNames items := by
  unfold parse at h
  rcases hext : extract_items_from_file items with ⟨fns, smap⟩
  rw [hext] at h
  unfold Parser.parse at h
  rcases hpf : parse_funcs n
      { src_struct_map := smap, struct_pool := [],
        parsing_or_parsed_struct_names := [] } fns
    with ⟨⟨funcs, st'⟩⟩ | e | _ <;> simp only [hpf] at h
  · cases h
    have hstep := parse_funcs_StepOK _ _ _ _ hpf
    have hmc : MapConsistent smap := by
      have := extract_go_consistent items [] [] (fun p hp => absurd hp (by simp))
      rw [show (extract_items_go items [] []) = extract_items_from_file items
            from rfl, hext] at this
      exact this
    have hpool : PoolNamesOk st' :=
      hstep.2.2 hmc (fun p hp => absurd hp (by simp))
    intro p hp
    obtain ⟨hname, hlook⟩ := hpool p hp
    refine ⟨hname, ?_⟩
    rw [hstep.1] at hlook
    have := extract_go_keys items [] [] p.1
    rw [show (extract_items_go items [] []) = extract_items_from_file items
          from rfl, hext] at this
    rcases this hlook with hmem | habs
    · exact hmem
    · exact absurd habs (by simp [alookup])
  · cases h
  · cases h

/-- Concrete inputs for the C10 and C8 witnesses. -/
def fnNode : SrcFn :=
  { name := ['g'],
    inputs := [SrcArg.typed { pat := SrcPat.ident ['a'], ty := sNode,
                              comments := [] }],
    output := SrcReturnType.ty (wrapGeneric clsResult tyString),
    comments := [] }

def itemsNode : List SrcItem :=
  [SrcItem.fn true fnNode, SrcItem.structItem true itemNode]

def docNode : ApiFile :=
  { funcs := [{ name := ['g'],
                inputs := [{ name := ['a'], ty := .StructRef sNode,
                             comments := [] }],
                output := .Delegate .String, mode := .Normal,
                comments := [] }],
    struct_pool := [(sNode, apsNode)],
    has_executor := false }

/-- C10 witness: the `Node` pool entry of a concrete document is named
after its key, and that key is a public struct of the file. -/
theorem claim_C10_witness :
    (apsNode.name = sNode ∧ sNode ∈ pubStructNames itemsNode) :=
  claim_C10 12 [] itemsNode docNode (by decide) (sNode, apsNode) (by decide)

/-- `strContains` agrees with contiguous-sublist occurrence. -/
theorem strContains_iff_infix {pat : List Char} :
    ∀ {s : List Char}, strContains pat s = true ↔ pat <:+: s := by
  intro s
  induction s with
  | nil =>
    simp only [strContains, List.isPrefixOf_iff_prefix, List.prefix_nil,
               List.infix_nil]
  | cons c rest ih =>
    simp only [strContains, Bool.or_eq_true, List.isPrefixOf_iff_prefix, ih,
               List.infix_cons_iff]

/-- C8: the produced document's capability flag is set if and only if
the fixed marker token occurs (as a contiguous substring) anywhere in the
raw source text — the declaration tree plays no role in the flag. -/
theorem claim_C8 (n : Nat) (src : List Char) (items : List SrcItem)
    (doc : ApiFile) (h : parse n src items = .ok doc) :
    doc.has_executor = strContains HANDLER_NAME src ∧
    (doc.has_executor = true ↔ HANDLER_NAME <:+: src) := by
  unfold parse at h
  rcases hext : extract_items_from_file items with ⟨fns, smap⟩
  rw [hext] at h
  unfold Parser.parse at h
  rcases hpf : parse_funcs n
      { src_struct_map := smap, struct_pool := [],
        parsing_or_parsed_struct_names := [] } fns
    with ⟨⟨funcs, st'⟩⟩ | e | _ <;> simp only [hpf] at h
  · cases h
    exact ⟨rfl, strContains_iff_infix⟩
  · cases h
  · cases h

/-- C8 witness: a source text that is exactly the marker token sets the
flag. -/
theorem claim_C8_witness :
    ({ funcs := [], struct_pool := [], has_executor := true } :
      ApiFile).has_executor = strContains HANDLER_NAME HANDLER_NAME :=
  (claim_C8 5 HANDLER_NAME []
    { funcs := [], struct_pool := [], has_executor := true } (by decide)).1

/-! ## Part VIII: the final unwraps of the Function Resolver are
unreachable -/

/-- The two errors that only the final `expect` unwraps of
`parse_function` could raise. -/
def ParseErr.isUnwrapErr : ParseErr → Bool
  | .unsupportedOutputUnwrap => true
  | .unsupportedModeUnwrap => true
  | _ => false

theorem orElseT_fail_cases {r : PResult (Option ApiType × ParserState)}
    {k : ParserState → PResult (ApiType × ParserState)} {e : ParseErr}
    (h : orElseT r k = .fail e) :
    r = .fail e ∨ ∃ st0, r = .ok (none, st0) ∧ k st0 = .fail e := by
  rcases r with ⟨⟨o, s⟩⟩ | e' | _
  · rcases o with _ | v
    · exact Or.inr ⟨s, rfl, h⟩
    · simp [orElseT] at h
  · simp only [orElseT] at h
    cases h
    exact Or.inl rfl
  · simp [orElseT] at h

/-- No function of the resolver pack ever raises the unwrap errors. -/
theorem pack_errs : ∀ n : Nat,
    (∀ st ty e, parse_type n st ty = .fail e → e.isUnwrapErr = false) ∧
    (∀ st ty e, try_parse_api_type_delegate n st ty = .fail e →
       e.isUnwrapErr = false) ∧
    (∀ st ty e, try_parse_list n st ty = .fail e → e.isUnwrapErr = false) ∧
    (∀ st ty e, try_parse_box n st ty = .fail e → e.isUnwrapErr = false) ∧
    (∀ st ty e, try_parse_option n st ty = .fail e → e.isUnwrapErr = false) ∧
    (∀ st ty e, try_parse_struct n st ty = .fail e → e.isUnwrapErr = false) ∧
    (∀ st ty e, parse_struct_core n st ty = .fail e → e.isUnwrapErr = false) ∧
    (∀ st fs idx e, parse_fields n st fs idx = .fail e →
       e.isUnwrapErr = false) := by
  intro n
  induction n with
  | zero =>
    refine ⟨fun st ty e h => ?_, fun st ty e h => ?_, fun st ty e h => ?_,
            fun st ty e h => ?_, fun st ty e h => ?_, fun st ty e h => ?_,
            fun st ty e h => ?_, fun st fs idx e h => ?_⟩ <;>
      simp [parse_type, try_parse_api_type_delegate, try_parse_list,
            try_parse_box, try_parse_option, try_parse_struct,
            parse_struct_core, parse_fields] at h
  | succ n ih =>
    obtain ⟨ihT, ihD, ihL, ihB, ihO, ihS, ihC, ihF⟩ := ih
    refine ⟨?_, ?_, ?_, ?_, ?_, ?_, ?_, ?_⟩
    -- parse_type
    · intro st ty e h
      simp only [parse_type] at h
      rcases hpr : ApiTypePrimitive.try_from_rust_str ty with _ | p <;>
        simp only [hpr] at h
      · rcases orElseT_fail_cases h with hD | ⟨s1, hD, h⟩
        · exact ihD _ _ _ hD
        · rcases orElseT_fail_cases h with hL | ⟨s2, hL, h⟩
          · exact ihL _ _ _ hL
          · rcases orElseT_fail_cases h with hB | ⟨s3, hB, h⟩
            · exact ihB _ _ _ hB
            · rcases orElseT_fail_cases h with hO | ⟨s4, hO, h⟩
              · exact ihO _ _ _ hO
              · rcases orElseT_fail_cases h with hS | ⟨s5, hS, h⟩
                · exact ihS _ _ _ hS
                · cases h; rfl
      · cases h
    -- try_parse_api_type_delegate
    · intro st ty e h
      simp only [try_parse_api_type_delegate] at h
      split at h
      · cases h
      · split at h
        · cases h
        · split at h
          · split at h
            · cases h
            · cases h
            · rename_i heq
              cases h
              exact ihL _ _ _ heq
            · cases h
          · cases h
    -- try_parse_list
    · intro st ty e h
      simp only [try_parse_list] at h
      split at h
      · split at h
        · cases h
        · cases h
        · rename_i heq
          cases h
          exact ihT _ _ _ heq
        · cases h
      · cases h
    -- try_parse_box
    · intro st ty e h
      simp only [try_parse_box] at h
      split at h
      · split at h
        · cases h
        · rename_i heq
          cases h
          exact ihT _ _ _ heq
        · cases h
      · cases h
    -- try_parse_option
    · intro st ty e h
      simp only [try_parse_option] at h
      split at h
      · split at h
        · cases h; rfl
        · split at h
          · cases h
          · cases h
          · cases h
          · rename_i heq
            cases h
            exact ihT _ _ _ heq
          · cases h
      · cases h
    -- try_parse_struct
    · intro st ty e h
      simp only [try_parse_struct] at h
      split at h
      · split at h
        · cases h
        · split at h
          · cases h
          · rename_i heq
            cases h
            exact ihC _ _ _ heq
          · cases h
      · cases h
    -- parse_struct_core
    · intro st ty e h
      simp only [parse_struct_core] at h
      split at h
      · cases h; rfl
      · split at h
        · cases h; rfl
        · split at h
          · cases h
          · rename_i heq
            cases h
            exact ihF _ _ _ _ heq
          · cases h
        · split at h
          · cases h
          · rename_i heq
            cases h
            exact ihF _ _ _ _ heq
          · cases h
    -- parse_fields
    · intro st fs idx e h
      cases fs with
      | nil =>
        simp only [parse_fields] at h
        cases h
      | cons f fs' =>
        simp only [parse_fields] at h
        split at h
        · split at h
          · cases h
          · rename_i heq
            cases h
            exact ihF _ _ _ _ heq
          · cases h
        · rename_i heq
          cases h
          exact ihT _ _ _ heq
        · cases h

theorem parse_type_fail_not_unwrap {n : Nat} {st : ParserState}
    {ty : List Char} {e : ParseErr}
    (h : parse_type n st ty = .fail e) : e.isUnwrapErr = false :=
  (pack_errs n).1 _ _ _ h

theorem try_parse_stream_sink_fail_not_unwrap {n : Nat} {st : ParserState}
    {ty : List Char} {e : ParseErr}
    (h : try_parse_stream_sink n st ty = .fail e) : e.isUnwrapErr = false := by
  unfold try_parse_stream_sink at h
  rcases hc : genericCaptures clsStreamSink ty with _ | inner <;>
    simp only [hc] at h
  · cases h
  · rcases hr : parse_type n st inner with ⟨⟨t, st1⟩⟩ | e2 | _ <;>
      simp only [hr] at h
    · cases h
    · cases h
      exact parse_type_fail_not_unwrap hr
    · cases h

theorem walk_params_fail_not_unwrap {n : Nat} :
    ∀ (args : List SrcArg) (st : ParserState) (acc : List ApiField)
      (out : Option ApiType) (mode : Option ApiFuncMode) (e : ParseErr),
      walk_params n st args acc out mode = .fail e → e.isUnwrapErr = false := by
  intro args
  induction args with
  | nil =>
    intro st acc out mode e h
    simp [walk_params] at h
  | cons a rest ih =>
    intro st acc out mode e h
    cases a with
    | receiver =>
      simp only [walk_params] at h
      cases h
      rfl
    | typed p =>
      simp only [walk_params] at h
      rcases hpat : p.pat with nm | _ <;> simp only [hpat] at h
      case _ =>
        rcases hss : try_parse_stream_sink n st p.ty
          with ⟨⟨o1, st1⟩⟩ | e2 | _ <;> simp only [hss] at h
        · rcases o1 with _ | t
          · rcases hr : parse_type n st1 p.ty with ⟨⟨t, st2⟩⟩ | e3 | _ <;>
              simp only [hr] at h
            · exact ih _ _ _ _ _ h
            · cases h
              exact parse_type_fail_not_unwrap hr
            · cases h
          · exact ih _ _ _ _ _ h
        · cases h
          exact try_parse_stream_sink_fail_not_unwrap hss
        · cases h
      case _ =>
        cases h
        rfl

/-- Along the parameter walk, whenever the output slot is filled the
mode slot is filled as well. -/
theorem walk_params_om {n : Nat} :
    ∀ (args : List SrcArg) (st : ParserState) (acc : List ApiField)
      (out : Option ApiType) (mode : Option ApiFuncMode)
      (acc' : List ApiField) (out' : Option ApiType)
      (mode' : Option ApiFuncMode) (st' : ParserState),
      (out.isSome = true → mode.isSome = true) →
      walk_params n st args acc out mode = .ok ((acc', out', mode'), st') →
      (out'.isSome = true → mode'.isSome = true) := by
  intro args
  induction args with
  | nil =>
    intro st acc out mode acc' out' mode' st' hinv h
    simp only [walk_params] at h
    cases h
    exact hinv
  | cons a rest ih =>
    intro st acc out mode acc' out' mode' st' hinv h
    cases a with
    | receiver => simp [walk_params] at h
    | typed p =>
      simp only [walk_params] at h
      rcases hpat : p.pat with nm | _ <;> simp only [hpat] at h
      case _ =>
        rcases hss : try_parse_stream_sink n st p.ty
          with ⟨⟨o1, st1⟩⟩ | e2 | _ <;> simp only [hss] at h
        · rcases o1 with _ | t
          · rcases hr : parse_type n st1 p.ty with ⟨⟨t, st2⟩⟩ | e3 | _ <;>
              simp only [hr] at h
            · exact ih _ _ _ _ _ _ _ _ hinv h
            · cases h
            · cases h
          · exact ih _ _ _ _ _ _ _ _ (fun _ => Option.isSome_some) h
        · cases h
        · cases h
      case _ => cases h

theorem parse_function_fail_not_unwrap {n : Nat} {st : ParserState}
    {func : SrcFn} {e : ParseErr}
    (h : parse_function n st func = .fail e) : e.isUnwrapErr = false := by
  unfold parse_function at h
  rcases hw : walk_params n st func.inputs [] none none
    with ⟨⟨⟨inputs, out?, mode?⟩, st1⟩⟩ | e2 | _ <;> simp only [hw] at h
  · have hom := walk_params_om func.inputs st [] none none
      inputs out? mode? st1 (fun hx => hx) hw
    rcases out? with _ | o
    · rcases hout : func.output with _ | tyStr <;> simp only [hout] at h
      · cases h; rfl
      · rcases hcap : genericCaptures clsResult tyStr with _ | inner <;>
          simp only [hcap] at h
        · cases h; rfl
        · rcases hr : parse_type n st1 inner with ⟨⟨t, st2⟩⟩ | e3 | _ <;>
            simp only [hr] at h
          · cases h
          · cases h
            exact parse_type_fail_not_unwrap hr
          · cases h
    · rcases mode? with _ | m
      · exact absurd (hom rfl) (by simp)
      · simp only at h
        cases h
  · cases h
    exact walk_params_fail_not_unwrap _ _ _ _ _ _ hw
  · cases h

/-- C9: the Function Resolver's final unwraps of the output slot and the
mode slot are unreachable: no run of `parse_function`, on any input and
any state, ever produces the corresponding panics — every control path
either fills both slots or fails earlier with a different error. -/
theorem claim_C9 (n : Nat) (st : ParserState) (func : SrcFn) :
    parse_function n st func ≠ .fail .unsupportedOutputUnwrap ∧
    parse_function n st func ≠ .fail .unsupportedModeUnwrap := by
  constructor <;>
    · intro hcon
      have := parse_function_fail_not_unwrap hcon
      simp [ParseErr.isUnwrapErr] at this

/-! ## Part IX: the stream-channel parameter (C2) -/

/-- The names of the simply-bound typed parameters, in order. -/
def typedNames : List SrcArg → List (List Char)
  | [] => []
  | SrcArg.typed p :: rest =>
    (match p.pat with
     | SrcPat.ident nm => [nm]
     | SrcPat.other => []) ++ typedNames rest
  | SrcArg.receiver :: rest => typedNames rest

/-- Step equations for the parameter walk. -/
theorem walk_params_cons_other {n : Nat} {st : ParserState} {p : SrcParam}
    (rest : List SrcArg) {acc : List ApiField} {out : Option ApiType}
    {mode : Option ApiFuncMode} (hpat : p.pat = SrcPat.other) :
    walk_params n st (SrcArg.typed p :: rest) acc out mode =
      .fail .unexpectedPatType := by
  simp [walk_params, hpat]

theorem walk_params_cons_stream {n : Nat} {st st1 : ParserState}
    {p : SrcParam} {nmp : List Char} {t : ApiType}
    (rest : List SrcArg) {acc : List ApiField} {out : Option ApiType}
    {mode : Option ApiFuncMode} (hpat : p.pat = SrcPat.ident nmp)
    (hss : try_parse_stream_sink n st p.ty = .ok (some t, st1)) :
    walk_params n st (SrcArg.typed p :: rest) acc out mode =
      walk_params n st1 rest acc (some t) (some .Stream) := by
  simp [walk_params, hpat, hss]

theorem walk_params_cons_sfail {n : Nat} {st : ParserState} {p : SrcParam}
    {nmp : List Char} {e : ParseErr}
    (rest : List SrcArg) {acc : List ApiField} {out : Option ApiType}
    {mode : Option ApiFuncMode} (hpat : p.pat = SrcPat.ident nmp)
    (hss : try_parse_stream_sink n st p.ty = .fail e) :
    walk_params n st (SrcArg.typed p :: rest) acc out mode = .fail e := by
  simp [walk_params, hpat, hss]

theorem walk_params_cons_soof {n : Nat} {st : ParserState} {p : SrcParam}
    {nmp : List Char}
    (rest : List SrcArg) {acc : List ApiField} {out : Option ApiType}
    {mode : Option ApiFuncMode} (hpat : p.pat = SrcPat.ident nmp)
    (hss : try_parse_stream_sink n st p.ty = .outOfFuel) :
    walk_params n st (SrcArg.typed p :: rest) acc out mode = .outOfFuel := by
  simp [walk_params, hpat, hss]

theorem walk_params_cons_normal {n : Nat} {st st1 st2 : ParserState}
    {p : SrcParam} {nmp : List Char} {t : ApiType}
    (rest : List SrcArg) {acc : List ApiField} {out : Option ApiType}
    {mode : Option ApiFuncMode} (hpat : p.pat = SrcPat.ident nmp)
    (hss : try_parse_stream_sink n st p.ty = .ok (none, st1))
    (hr : parse_type n st1 p.ty = .ok (t, st2)) :
    walk_params n st (SrcArg.typed p :: rest) acc out mode =
      walk_params n st2 rest
        (acc ++ [{ name := nmp, ty := t, comments := p.comments }]) out mode := by
  simp [walk_params, hpat, hss, hr]

theorem walk_params_cons_nfail {n : Nat} {st st1 : ParserState}
    {p : SrcParam} {nmp : List Char} {e : ParseErr}
    (rest : List SrcArg) {acc : List ApiField} {out : Option ApiType}
    {mode : Option ApiFuncMode} (hpat : p.pat = SrcPat.ident nmp)
    (hss : try_parse_stream_sink n st p.ty = .ok (none, st1))
    (hr : parse_type n st1 p.ty = .fail e) :
    walk_params n st (SrcArg.typed p :: rest) acc out mode = .fail e := by
  simp [walk_params, hpat, hss, hr]

theorem walk_params_cons_noof {n : Nat} {st st1 : ParserState}
    {p : SrcParam} {nmp : List Char}
    (rest : List SrcArg) {acc : List ApiField} {out : Option ApiType}
    {mode : Option ApiFuncMode} (hpat : p.pat = SrcPat.ident nmp)
    (hss : try_parse_stream_sink n st p.ty = .ok (none, st1))
    (hr : parse_type n st1 p.ty = .outOfFuel) :
    walk_params n st (SrcArg.typed p :: rest) acc out mode = .outOfFuel := by
  simp [walk_params, hpat, hss, hr]

/-- The parameter walk processes an appended list in two stages. -/
theorem walk_params_append {n : Nat} :
    ∀ (xs ys : List SrcArg) (st : ParserState) (acc : List ApiField)
      (out : Option ApiType) (mode : Option ApiFuncMode),
      walk_params n st (xs ++ ys) acc out mode =
        match walk_params n st xs acc out mode with
        | .ok ((acc', out', mode'), st') => walk_params n st' ys acc' out' mode'
        | .fail e => .fail e
        | .outOfFuel => .outOfFuel := by
  intro xs
  induction xs with
  | nil => intro ys st acc out mode; simp [walk_params]
  | cons a xs ih =>
    intro ys st acc out mode
    cases a with
    | receiver => simp [walk_params]
    | typed p =>
      rcases hpat : p.pat with nmp | _
      · rcases hss : try_parse_stream_sink n st p.ty with ⟨⟨o1, st1⟩⟩ | e | _
        · rcases o1 with _ | t
          · rcases hr : parse_type n st1 p.ty with ⟨⟨t, st2⟩⟩ | e | _
            · rw [List.cons_append,
                  walk_params_cons_normal (xs ++ ys) hpat hss hr,
                  walk_params_cons_normal xs hpat hss hr, ih]
            · rw [List.cons_append,
                  walk_params_cons_nfail (xs ++ ys) hpat hss hr,
                  walk_params_cons_nfail xs hpat hss hr]
            · rw [List.cons_append,
                  walk_params_cons_noof (xs ++ ys) hpat hss hr,
                  walk_params_cons_noof xs hpat hss hr]
          · rw [List.cons_append,
                walk_params_cons_stream (xs ++ ys) hpat hss,
                walk_params_cons_stream xs hpat hss, ih]
        · rw [List.cons_append,
              walk_params_cons_sfail (xs ++ ys) hpat hss,
              walk_params_cons_sfail xs hpat hss]
        · rw [List.cons_append,
              walk_params_cons_soof (xs ++ ys) hpat hss,
              walk_params_cons_soof xs hpat hss]
      · rw [List.cons_append, walk_params_cons_other (xs ++ ys) hpat,
            walk_params_cons_other xs hpat]

/-- Over stream-free parameters the walk leaves the output and mode
slots untouched and appends exactly the parameter names. -/
theorem walk_params_nostream {n : Nat} :
    ∀ (xs : List SrcArg) (st : ParserState) (acc : List ApiField)
      (out : Option ApiType) (mode : Option ApiFuncMode)
      (acc' : List ApiField) (out' : Option ApiType)
      (mode' : Option ApiFuncMode) (st' : ParserState),
      (∀ p, SrcArg.typed p ∈ xs → genericCaptures clsStreamSink p.ty = none) →
      walk_params n st xs acc out mode = .ok ((acc', out', mode'), st') →
      out' = out ∧ mode' = mode ∧
      acc'.map (fun fld => fld.name) =
        acc.map (fun fld => fld.name) ++ typedNames xs := by
  intro xs
  induction xs with
  | nil =>
    intro st acc out mode acc' out' mode' st' hstream h
    simp only [walk_params] at h
    cases h
    exact ⟨rfl, rfl, by simp [typedNames]⟩
  | cons a rest ih =>
    intro st acc out mode acc' out' mode' st' hstream h
    cases a with
    | receiver => simp [walk_params] at h
    | typed p =>
      simp only [walk_params] at h
      rcases hpat : p.pat with nmp | _ <;> simp only [hpat] at h
      case _ =>
        have hns : genericCaptures clsStreamSink p.ty = none :=
          hstream p (by simp)
        have hss : try_parse_stream_sink n st p.ty = .ok (none, st) := by
          unfold try_parse_stream_sink
          rw [hns]
        simp only [hss] at h
        rcases hr : parse_type n st p.ty with ⟨⟨t, st2⟩⟩ | e | _ <;>
          simp only [hr] at h
        · obtain ⟨ho, hm, hnames⟩ :=
            ih _ _ _ _ _ _ _ _ (fun q hq => hstream q (by simp [hq])) h
          refine ⟨ho, hm, ?_⟩
          rw [hnames]
          simp [typedNames, hpat, List.append_assoc]
        · cases h
        · cases h
      case _ => cases h

/-- C2: a function with exactly one stream-channel parameter resolves to
mode `Stream`; its output is the resolution of the channel's inner type;
the channel parameter is absent from the input list (the inputs are
exactly the other parameters, in order); and the declared return type is
never consulted: any other declared return type yields the identical
function node and state. -/
theorem claim_C2 (n : Nat) (st : ParserState) (nm : List Char)
    (pre post : List SrcArg) (sp : SrcParam) (T : List Char)
    (out0 : SrcReturnType) (cmts : List (List Char))
    (f : ApiFunc) (stF : ParserState)
    (hsp : genericCaptures clsStreamSink sp.ty = some T)
    (hpre : ∀ p, SrcArg.typed p ∈ pre →
       genericCaptures clsStreamSink p.ty = none)
    (hpost : ∀ p, SrcArg.typed p ∈ post →
       genericCaptures clsStreamSink p.ty = none)
    (h : parse_function n st
        { name := nm, inputs := pre ++ SrcArg.typed sp :: post,
          output := out0, comments := cmts } = .ok (f, stF)) :
    f.mode = .Stream ∧
    f.inputs.map (fun fld => fld.name) = typedNames pre ++ typedNames post ∧
    (∃ (acc₁ : List ApiField) (st₁ st₂ : ParserState),
       walk_params n st pre [] none none = .ok ((acc₁, none, none), st₁) ∧
       parse_type n st₁ T = .ok (f.output, st₂)) ∧
    (∀ out', parse_function n st
        { name := nm, inputs := pre ++ SrcArg.typed sp :: post,
          output := out', comments := cmts } = .ok (f, stF)) := by
  simp only [parse_function] at h
  rcases hw : walk_params n st (pre ++ SrcArg.typed sp :: post) [] none none
    with ⟨⟨⟨inputs, out?, mode?⟩, st1⟩⟩ | e | _ <;> simp only [hw] at h
  · have hw0 := hw
    rw [walk_params_append pre (SrcArg.typed sp :: post) st [] none none] at hw
    rcases hw1 : walk_params n st pre [] none none
      with ⟨⟨⟨accPre, o1, m1⟩, stPre⟩⟩ | e | _ <;> simp only [hw1] at hw
    · obtain ⟨ho1, hm1, hnamesPre⟩ :=
        walk_params_nostream pre st [] none none accPre o1 m1 stPre hpre hw1
      subst ho1
      subst hm1
      simp only [walk_params] at hw
      rcases hpat : sp.pat with nmS | _ <;> simp only [hpat] at hw
      case _ =>
        have hsseq : try_parse_stream_sink n stPre sp.ty =
            (match parse_type n stPre T with
             | .ok (t, st'') => .ok (some t, st'')
             | .fail e => .fail e
             | .outOfFuel => .outOfFuel) := by
          unfold try_parse_stream_sink
          rw [hsp]
        rcases hr : parse_type n stPre T with ⟨⟨t, st2'⟩⟩ | e | _ <;>
          simp only [hsseq, hr] at hw
        · obtain ⟨hout, hmode, hnames⟩ :=
            walk_params_nostream post st2' accPre (some t) (some .Stream)
              inputs out? mode? st1 hpost hw
          subst hout
          subst hmode
          simp only [Option.isSome_some] at h
          cases h
          refine ⟨rfl, ?_, ⟨accPre, stPre, st2', rfl, hr⟩, ?_⟩
          · rw [hnames, hnamesPre]
            simp
          · intro out'
            simp only [parse_function, hw0]
        · cases hw
        · cases hw
      case _ => cases hw
    · cases hw
    · cases hw
  · cases h
  · cases h

/-- Concrete inputs for the C2 witness: `pub fn g(s: StreamSink<String>)`. -/
def spStream : SrcParam :=
  { pat := SrcPat.ident ['s'], ty := wrapGeneric clsStreamSink tyString,
    comments := [] }

def fStream : ApiFunc :=
  { name := ['g'], inputs := [], output := .Delegate .String,
    mode := .Stream, comments := [] }

/-- C2 witness: the stream-channel function resolves with mode
`Stream` (and, per the applied theorem, an empty input list and an
ignored declared return type). -/
theorem claim_C2_witness : fStream.mode = ApiFuncMode.Stream :=
  (claim_C2 5 emptyState ['g'] [] [] spStream tyString SrcReturnType.default []
      fStream emptyState (by decide)
      (fun p hp => absurd hp (by simp))
      (fun p hp => absurd hp (by simp))
      (by decide)).1
